import Mathlib

/-!
Verification of the windowed DEM raster cache of the `sion` repository
(`src/sion/src/maxx_sim/types.rs`, `src/sion/src/maxx_sim/dem_buffer.rs`).

The Rust code is shallowly embedded:

* `i32` values are modelled as `Int` (the buffer works with Earth-scale cell
  coordinates, far from `i32` overflow; the one place where two's-complement
  wrapping matters, the 16-bit packing of `CellKey`, is modelled explicitly
  with `emod 65536` and sign extension).
* The source stores degree values as `f32`.  A degree value is modelled as an
  exact fraction `num / den` (`Sion.Deg`), so that every arithmetic step the
  source performs on degrees (multiply by the tile size, divide a cell index
  by the tile size, compare against integer literals, floor, truncating cast
  to `i32`) is mirrored exactly on integers.  All concrete inputs used in the
  theorems below are dyadic rationals whose `f32` arithmetic is exact.
* Every `panic!` of the source becomes an `Except.error` with a constructor
  naming the panic site; the `while` loop of `update_buffer_area` is given an
  explicit fuel parameter (running out of fuel is one more error), and the
  theorems quantify over the fuel.
-/

namespace Sion

/-- Panic sites of the source, by location. -/
inductive Err where
  /-- `set_cell`: "Trying to overwrite an already occupied cell". -/
  | overwrite
  /-- `get_cell` / `set_cell` / slice copies: "Index out of bounds". -/
  | indexOOB
  /-- `CellKey`: "Cell coordinates out of bounds". -/
  | cellCoordsOOB
  /-- `Deg::new`: "Invalid degree value". -/
  | degOOB
  /-- `load_tile_slice`: "Tile X/Y coordinate out of bounds". -/
  | tileCoordOOB
  /-- `load_tile_slice`: "Center cell does not match loaded DEM cell". -/
  | centerMismatch
  /-- `load_tile_slice`: control read-back does not match what was written. -/
  | controlMismatch
  /-- `fill_missing_data_after_move`: "No block move found". -/
  | noBlockMove
  /-- fuel of the embedded `update_buffer_area` loop ran out. -/
  | fuelOut
deriving DecidableEq, Repr

/-- `Deg` (source: `struct Deg { value: f32 }`): a degree value, modelled as
the exact fraction `num / den`.  All constructors in the modelled code paths
produce a positive `den`. -/
structure Deg where
  num : Int
  den : Int
deriving DecidableEq, Repr

/-- The real number a `Deg` stands for. -/
def degValue (d : Deg) : ℚ := (d.num : ℚ) / (d.den : ℚ)

/-- The range check of `Deg::new`: `value > -181.0 && value < 180.0`
(for a positive `den` the integer comparisons are exactly the comparisons on
`num / den`). -/
def mkDeg (num den : Int) : Except Err Deg :=
  if -181 * den < num ∧ num < 180 * den then .ok ⟨num, den⟩ else .error .degOOB

/-- A degree value with an integral number of degrees (`n as f32`). -/
def Deg.ofInt (n : Int) : Deg := ⟨n, 1⟩

/-- `Deg::to_int_floor`: `self.value.floor() as i32`. -/
def Deg.toIntFloor (d : Deg) : Int := d.num.fdiv d.den

/-- `GlobalCell` (source: `struct GlobalCell { value: i32 }`). -/
structure GlobalCell where
  value : Int
deriving DecidableEq, Repr

/-- `GlobalCell::from_degrees`: `(value * dem_tile_size as f32) as i32`.
Rust's `as i32` cast truncates toward zero, which on the exact fraction
`num * t / den` is `Int.tdiv`. -/
def GlobalCell.fromDegrees (d : Deg) (demTileSize : Int) : GlobalCell :=
  ⟨(d.num * demTileSize).tdiv d.den⟩

/-- `GlobalCell::to_tile_degrees`: divide by the tile size and renormalize by
±360 when the quotient is `≤ -181` or `≥ 180`; the resulting value passes
through the `Deg::new` range check.  For `0 < t` the integer comparisons below
are exactly the source's comparisons on the quotient. -/
def GlobalCell.toTileDegrees (g : GlobalCell) (t : Int) : Except Err Deg :=
  if g.value ≤ -181 * t then mkDeg (g.value + 360 * t) t
  else if g.value ≥ 180 * t then mkDeg (g.value - 360 * t) t
  else mkDeg g.value t

/-- `LocalCell` (source: `struct LocalCell { value: i32 }`). -/
structure LocalCell where
  value : Int
deriving DecidableEq, Repr

/-- `GlobalCell::to_local_cell_lon`: `m = value % t` (Rust `%` is `Int.tmod`,
the local binding `m` of the source is inlined), then `t + m` if `m < 0`
else `m`. -/
def GlobalCell.toLocalCellLon (g : GlobalCell) (t : Int) : LocalCell :=
  if g.value.tmod t < 0 then ⟨t + g.value.tmod t⟩ else ⟨g.value.tmod t⟩

/-- `GlobalCell::to_local_cell_lat`: for negative values
`a = -1 - value % t` (the binding `a` is inlined), plus `t` if `a < 0`;
otherwise `t - 1 - value % t`. -/
def GlobalCell.toLocalCellLat (g : GlobalCell) (t : Int) : LocalCell :=
  if g.value < 0 then
    if -1 - g.value.tmod t < 0 then ⟨-1 - g.value.tmod t + t⟩
    else ⟨-1 - g.value.tmod t⟩
  else ⟨t - 1 - g.value.tmod t⟩

/-- `TileKey` (source: `struct TileKey { lon: i32, lat: i32 }`). -/
structure TileKey where
  lon : Int
  lat : Int
deriving DecidableEq, Repr

/-- `TileKey::from_lon_lat`. -/
def TileKey.fromLonLat (lon lat : Int) : TileKey := ⟨lon, lat⟩

/-- `CellKey` (source: `struct CellKey { value: i32 }`): two 16-bit signed
cell coordinates packed into one `i32`. -/
structure CellKey where
  value : Int
deriving DecidableEq, Repr

/-- Sign extension of the low 16 bits (`as i16` on a value in `[0, 2^16)`). -/
def sext16 (n : Int) : Int :=
  if n < 32768 then n else n - 65536

/-- `CellKey::from_cell_coords`: bounds check, then
`(y << 16) | (x & 0xFFFF)`.  After the check `y << 16` does not overflow and
its low 16 bits are zero, so the bit-or is `y * 2^16 + (x mod 2^16)`. -/
def CellKey.fromCellCoords (x y : GlobalCell) : Except Err CellKey :=
  if x.value ≤ -32768 ∨ x.value ≥ 32767 ∨ y.value ≤ -32768 ∨ y.value ≥ 32767
  then .error .cellCoordsOOB
  else .ok ⟨y.value * 65536 + x.value % 65536⟩

/-- `CellKey::from_i32`. -/
def CellKey.fromI32 (v : Int) : CellKey := ⟨v⟩

/-- `CellKey::to_cell_coords`: sign-extend the low 16 bits for `x` and bits
16..31 (`value >> 16`, an arithmetic shift, is floor division by `2^16`,
which for the positive divisor is Lean's `/` on `Int`) for `y`, then the
same bounds check as `from_cell_coords`. -/
def CellKey.toCellCoords (k : CellKey) : Except Err (GlobalCell × GlobalCell) :=
  let x := sext16 (k.value % 65536)
  let y := sext16 (k.value / 65536 % 65536)
  if x ≤ -32768 ∨ x ≥ 32767 ∨ y ≤ -32768 ∨ y ≥ 32767
  then .error .cellCoordsOOB
  else .ok (⟨x⟩, ⟨y⟩)

/-- `CellKey::to_i32`. -/
def CellKey.toI32 (k : CellKey) : Int := k.value

/-- `TileSlice` (source: `struct TileSlice`). -/
structure TileSlice where
  tileKey : TileKey
  sliceBufferX0 : Int
  sliceBufferY0 : Int
  sliceTileX0 : LocalCell
  sliceTileY0 : LocalCell
  sliceWidth : Int
  sliceHeight : Int
deriving DecidableEq, Repr

/-- `BlockMove` (source: `struct BlockMove`). -/
structure BlockMove where
  sourceX0 : Int
  sourceY0 : Int
  blockWidth : Int
  blockHeight : Int
  destX0 : Int
  destY0 : Int
deriving DecidableEq, Repr

/-- `BufferState` (source names: `Uninitialized` / `Initialized`). -/
inductive BufferState where
  | uninit
  | inited
deriving DecidableEq, Repr

/-- `BufferUpdateDecision`. -/
inductive BufferUpdateDecision where
  | partUpdatePerformed
  | entireBufferReloadRequired
deriving DecidableEq, Repr

/-- `DemBuffer` (source: `struct DemBuffer`); the `data` box becomes a
`List Int` indexed by `y * buffer_width + x`. -/
structure DemBuffer where
  bufferWidth : Int
  bufferHeight : Int
  demTileSize : Int
  minCellDistanceToEdgeBeforeRefresh : Int
  state : BufferState
  data : List Int
  centerGlobalCellLon : GlobalCell
  centerGlobalCellLat : GlobalCell
  bufferWestEdge : GlobalCell
  bufferEastEdge : GlobalCell
  bufferNorthEdge : GlobalCell
  bufferSouthEdge : GlobalCell
  slicesLoaded : List TileSlice
  blockMove : Option BlockMove
deriving DecidableEq, Repr

/-- `DemBuffer::new`. -/
def DemBuffer.new (width height demTileSize minDist : Int) : DemBuffer where
  bufferWidth := width
  bufferHeight := height
  demTileSize := demTileSize
  minCellDistanceToEdgeBeforeRefresh := minDist
  state := .uninit
  data := List.replicate (width * height).toNat 0
  centerGlobalCellLon := ⟨0⟩
  centerGlobalCellLat := ⟨0⟩
  bufferWestEdge := ⟨0⟩
  bufferEastEdge := ⟨0⟩
  bufferNorthEdge := ⟨0⟩
  bufferSouthEdge := ⟨0⟩
  slicesLoaded := []
  blockMove := none

/-- `DemBuffer::get_cell`: index `(y * width + x) as usize` (a negative index
wraps to a huge `usize`, hence fails the length check and panics). -/
def DemBuffer.getCell (b : DemBuffer) (x y : Int) : Except Err CellKey :=
  let idx := y * b.bufferWidth + x
  if 0 ≤ idx ∧ idx < (b.data.length : Int) then .ok ⟨b.data.getD idx.toNat 0⟩
  else .error .indexOOB

/-- `DemBuffer::set_cell`: same indexing; overwriting a cell whose stored
value is not the sentinel `0` is the fatal "buffer update algorithm has a
bug" branch. -/
def DemBuffer.setCell (b : DemBuffer) (x y : Int) (v : CellKey) :
    Except Err DemBuffer :=
  let idx := y * b.bufferWidth + x
  if 0 ≤ idx ∧ idx < (b.data.length : Int) then
    if b.data.getD idx.toNat 0 ≠ 0 then .error .overwrite
    else .ok { b with data := b.data.set idx.toNat v.value }
  else .error .indexOOB

/-- `DemBuffer::clear_data`: every cell back to the sentinel `0`. -/
def DemBuffer.clearData (b : DemBuffer) : DemBuffer :=
  { b with data := b.data.map (fun _ => 0) }

/-- `DemBuffer::clear_update_log`. -/
def DemBuffer.clearUpdateLog (b : DemBuffer) : DemBuffer :=
  { b with slicesLoaded := [], blockMove := none }

/-- `0, 1, ..., n-1` as integers (a Rust `for i in 0..n` range). -/
def intRange0 (n : Int) : List Int :=
  List.map Nat.cast (List.range n.toNat)

/-- `DemBuffer::prop_all_cells_are_set`: no cell holds the sentinel `0`. -/
def DemBuffer.propAllCellsAreSet (b : DemBuffer) : Bool :=
  b.data.all (fun c => c ≠ 0)

/-- Body of `prop_all_cells_are_good_neighbors` for one `(x, y)` pair:
check the east and the south neighbor. -/
def DemBuffer.goodNeighborAt (b : DemBuffer) (x y : Int) : Except Err Bool := do
  let c ← b.getCell x y
  let cc ← c.toCellCoords
  let e ← b.getCell (x + 1) y
  let ec ← e.toCellCoords
  let expectedEastX :=
    if cc.1.value + 1 ≥ 180 * b.demTileSize
    then cc.1.value + 1 - 360 * b.demTileSize
    else cc.1.value + 1
  if ec.1.value ≠ expectedEastX ∨ ec.2.value ≠ cc.2.value then .ok false
  else do
    let s ← b.getCell x (y + 1)
    let sc ← s.toCellCoords
    if sc.1.value ≠ cc.1.value ∨ sc.2.value ≠ cc.2.value - 1 then .ok false
    else .ok true

/-- Inner loop of `prop_all_cells_are_good_neighbors` over a list of cells. -/
def DemBuffer.goodNeighborsOn (b : DemBuffer) : List (Int × Int) → Except Err Bool
  | [] => .ok true
  | p :: rest => do
    let ok ← b.goodNeighborAt p.1 p.2
    if ok then b.goodNeighborsOn rest else .ok false

/-- `DemBuffer::prop_all_cells_are_good_neighbors`: every interior cell's
east neighbor is `lon + 1` (wrapped at `180 * dem_tile_size`) at the same
latitude, and its south neighbor is the same longitude at `lat - 1`. -/
def DemBuffer.propAllCellsAreGoodNeighbors (b : DemBuffer) : Except Err Bool :=
  b.goodNeighborsOn
    ((intRange0 (b.bufferHeight - 1)).flatMap fun y =>
      (intRange0 (b.bufferWidth - 1)).map fun x => (x, y))

/-- One cell of `load_tile_slice`'s double loop: bounds-check the tile-local
coordinates, derive the cell's global coordinates from the tile corner, check
the buffer-center assertion, write through `set_cell` and read back. -/
def DemBuffer.sliceCell (b : DemBuffer) (s : TileSlice)
    (lonGC latGC : GlobalCell) (y x : Int) : Except Err DemBuffer := do
  let tileX := s.sliceTileX0.value + x
  if tileX < 0 ∨ tileX ≥ b.demTileSize then .error .tileCoordOOB
  else
    let tileY := s.sliceTileY0.value + y
    if tileY < 0 ∨ tileY ≥ b.demTileSize then .error .tileCoordOOB
    else
      let demLon : GlobalCell := ⟨lonGC.value + tileX⟩
      let demLat : GlobalCell := ⟨latGC.value + (b.demTileSize - 1 - tileY)⟩
      let bufX := s.sliceBufferX0 + x
      let bufY := s.sliceBufferY0 + y
      if bufX = b.bufferWidth.tdiv 2 ∧ bufY = b.bufferHeight.tdiv 2 ∧
          (demLon ≠ b.centerGlobalCellLon ∨ demLat ≠ b.centerGlobalCellLat)
      then .error .centerMismatch
      else do
        let key ← CellKey.fromCellCoords demLon demLat
        let b ← b.setCell bufX bufY key
        let control ← b.getCell bufX bufY
        let cc ← control.toCellCoords
        if cc.1.value ≠ demLon.value ∨ cc.2.value ≠ demLat.value
        then .error .controlMismatch
        else .ok b

/-- The `x` loop of `load_tile_slice` for one row. -/
def DemBuffer.sliceCols (b : DemBuffer) (s : TileSlice)
    (lonGC latGC : GlobalCell) (y : Int) : List Int → Except Err DemBuffer
  | [] => .ok b
  | x :: rest => do
    let b ← b.sliceCell s lonGC latGC y x
    b.sliceCols s lonGC latGC y rest

/-- The `y` loop of `load_tile_slice`. -/
def DemBuffer.sliceRows (b : DemBuffer) (s : TileSlice)
    (lonGC latGC : GlobalCell) : List Int → Except Err DemBuffer
  | [] => .ok b
  | y :: rest => do
    let b ← b.sliceCols s lonGC latGC y (intRange0 s.sliceWidth)
    b.sliceRows s lonGC latGC rest

/-- `DemBuffer::load_tile_slice`: convert the tile corner to global cells,
fill every cell of the slice, then record the slice in `slices_loaded`. -/
def DemBuffer.loadTileSlice (b : DemBuffer) (s : TileSlice) :
    Except Err DemBuffer := do
  let lonDeg ← mkDeg s.tileKey.lon 1
  let lonGC := GlobalCell.fromDegrees lonDeg b.demTileSize
  let latDeg ← mkDeg s.tileKey.lat 1
  let latGC := GlobalCell.fromDegrees latDeg b.demTileSize
  let b ← b.sliceRows s lonGC latGC (intRange0 s.sliceHeight)
  .ok { b with slicesLoaded := b.slicesLoaded ++ [s] }

/-- The `while next_slice_available` loop of `update_buffer_area`, with
explicit fuel.  The parameters mirror the source's loop-local variables:
`sliceWest`/`sliceNorth` are `slice_west_edge_global_cell` /
`slice_north_edge_global_cell`, `x0`/`y0` are `slice_buffer_x0` /
`slice_buffer_y0`. -/
def DemBuffer.updateAreaLoop (fuel : Nat) (b : DemBuffer)
    (areaX areaY areaW areaH : Int) (areaWestGC : GlobalCell)
    (sliceWest sliceNorth : GlobalCell) (x0 y0 : Int) :
    Except Err DemBuffer :=
  match fuel with
  | 0 => .error .fuelOut
  | fuel + 1 => do
    let tileLonDeg ← sliceWest.toTileDegrees b.demTileSize
    let tileLatDeg ← sliceNorth.toTileDegrees b.demTileSize
    let tileKey := TileKey.fromLonLat tileLonDeg.toIntFloor tileLatDeg.toIntFloor
    let sliceTileX0 := sliceWest.toLocalCellLon b.demTileSize
    let sliceTileY0 := sliceNorth.toLocalCellLat b.demTileSize
    let sliceW := min (areaX + areaW - x0) (b.demTileSize - sliceTileX0.value)
    let sliceH := min (areaY + areaH - y0) (b.demTileSize - sliceTileY0.value)
    let b ← b.loadTileSlice
      ⟨tileKey, x0, y0, sliceTileX0, sliceTileY0, sliceW, sliceH⟩
    if x0 + sliceW ≥ areaW then
      if y0 + sliceH ≥ areaH then .ok b
      else
        b.updateAreaLoop fuel areaX areaY areaW areaH areaWestGC
          areaWestGC ⟨sliceNorth.value - sliceH⟩ areaX (y0 + sliceH)
    else
      b.updateAreaLoop fuel areaX areaY areaW areaH areaWestGC
        ⟨sliceWest.value + sliceW⟩ sliceNorth (x0 + sliceW) y0

/-- `DemBuffer::update_buffer_area`. -/
def DemBuffer.updateBufferArea (fuel : Nat) (b : DemBuffer)
    (areaX areaY areaW areaH : Int) : Except Err DemBuffer :=
  let areaWestGC : GlobalCell := ⟨b.bufferWestEdge.value + areaX⟩
  b.updateAreaLoop fuel areaX areaY areaW areaH areaWestGC
    areaWestGC b.bufferNorthEdge areaX areaY

/-- One cell of `move_dem_block`'s copy-into-scratch loop. -/
def DemBuffer.copyCell (b : DemBuffer) (acc : List Int) (y x : Int) :
    Except Err (List Int) := do
  let c ← b.getCell x y
  let destIdx := y * b.bufferWidth + x
  if 0 ≤ destIdx ∧ destIdx < (acc.length : Int) then
    .ok (acc.set destIdx.toNat c.toI32)
  else .error .indexOOB

/-- The `x` loop of the scratch copy. -/
def DemBuffer.copyCols (b : DemBuffer) (acc : List Int) (y : Int) :
    List Int → Except Err (List Int)
  | [] => .ok acc
  | x :: rest => do
    let acc ← b.copyCell acc y x
    b.copyCols acc y rest

/-- The `y` loop of the scratch copy. -/
def DemBuffer.copyRows (b : DemBuffer) (acc : List Int) :
    List Int → Except Err (List Int)
  | [] => .ok acc
  | y :: rest => do
    let acc ← b.copyCols acc y (intRange0 b.bufferWidth)
    b.copyRows acc rest

/-- The full-buffer scratch copy made at the start of `move_dem_block`. -/
def DemBuffer.copyAll (b : DemBuffer) : Except Err (List Int) :=
  b.copyRows (List.replicate (b.bufferWidth * b.bufferHeight).toNat 0)
    (intRange0 b.bufferHeight)

/-- One cell of the block copy of `move_dem_block`: read the scratch copy at
the source rectangle, write into the cleared buffer at the destination. -/
def DemBuffer.moveCell (b : DemBuffer) (dataCopy : List Int)
    (sourceX0 sourceY0 destX0 destY0 y x : Int) : Except Err DemBuffer := do
  let srcIdx := (sourceY0 + y) * b.bufferWidth + (sourceX0 + x)
  if 0 ≤ srcIdx ∧ srcIdx < (dataCopy.length : Int) then
    b.setCell (destX0 + x) (destY0 + y) ⟨dataCopy.getD srcIdx.toNat 0⟩
  else .error .indexOOB

/-- The `x` loop of the block copy. -/
def DemBuffer.moveCols (b : DemBuffer) (dataCopy : List Int)
    (sourceX0 sourceY0 destX0 destY0 y : Int) :
    List Int → Except Err DemBuffer
  | [] => .ok b
  | x :: rest => do
    let b ← b.moveCell dataCopy sourceX0 sourceY0 destX0 destY0 y x
    b.moveCols dataCopy sourceX0 sourceY0 destX0 destY0 y rest

/-- The `y` loop of the block copy. -/
def DemBuffer.moveRows (b : DemBuffer) (dataCopy : List Int)
    (sourceX0 sourceY0 blockWidth destX0 destY0 : Int) :
    List Int → Except Err DemBuffer
  | [] => .ok b
  | y :: rest => do
    let b ← b.moveCols dataCopy sourceX0 sourceY0 destX0 destY0 y
      (intRange0 blockWidth)
    b.moveRows dataCopy sourceX0 sourceY0 blockWidth destX0 destY0 rest

/-- `DemBuffer::move_dem_block`: scratch-copy the whole buffer, clear it,
copy the overlap block to its new position, record the `BlockMove`. -/
def DemBuffer.moveDemBlock (b : DemBuffer)
    (sourceX0 sourceY0 blockWidth blockHeight destX0 destY0 : Int) :
    Except Err DemBuffer := do
  let dataCopy ← b.copyAll
  let b := b.clearData
  let b ← b.moveRows dataCopy sourceX0 sourceY0 blockWidth destX0 destY0
    (intRange0 blockHeight)
  .ok { b with
    blockMove := some ⟨sourceX0, sourceY0, blockWidth, blockHeight,
      destX0, destY0⟩ }

/-- `DemBuffer::fill_missing_data_after_move`: the source only distinguishes
`dest_x0 == 0` (page in the strip east of the moved block) from
`dest_x0 != 0` (page in the west strip of width `dest_x0`); `todo 6` in the
source acknowledges the remaining cases are not covered. -/
def DemBuffer.fillMissingDataAfterMove (fuel : Nat) (b : DemBuffer) :
    Except Err DemBuffer :=
  match b.blockMove with
  | some bm =>
    if bm.destX0 = 0 then
      b.updateBufferArea fuel bm.blockWidth 0
        (b.bufferWidth - bm.blockWidth) b.bufferHeight
    else
      b.updateBufferArea fuel 0 0 bm.destX0 b.bufferHeight
  | none => .error .noBlockMove

/-- `DemBuffer::is_buffer_update_required`: distances from the visible
area's four edges to the buffer's four edges, compared against
`min_cell_distance_to_edge_before_refresh`.  Rust `i32` division by 2 is
`Int.tdiv`. -/
def DemBuffer.isBufferUpdateRequired (b : DemBuffer) (lon lat : Deg)
    (visibleAreaWidth visibleAreaHeight : Int) : Bool :=
  let mapCenterLonCell := GlobalCell.fromDegrees lon b.demTileSize
  let mapCenterLatCell := GlobalCell.fromDegrees lat b.demTileSize
  let visibleWestEdge := mapCenterLonCell.value - visibleAreaWidth.tdiv 2
  let visibleEastEdge := visibleWestEdge + visibleAreaWidth
  let visibleNorthEdge := mapCenterLatCell.value + visibleAreaHeight.tdiv 2
  let visibleSouthEdge := visibleNorthEdge - visibleAreaHeight
  let westDist := visibleWestEdge - b.bufferWestEdge.value
  let eastDist := b.bufferEastEdge.value - visibleEastEdge
  let northDist := b.bufferNorthEdge.value - visibleNorthEdge
  let southDist := visibleSouthEdge - b.bufferSouthEdge.value
  decide (westDist < b.minCellDistanceToEdgeBeforeRefresh) ||
  decide (eastDist < b.minCellDistanceToEdgeBeforeRefresh) ||
  decide (northDist < b.minCellDistanceToEdgeBeforeRefresh) ||
  decide (southDist < b.minCellDistanceToEdgeBeforeRefresh)

/-- `DemBuffer::reload_entire_buffer`. -/
def DemBuffer.reloadEntireBuffer (fuel : Nat) (b : DemBuffer) (lon lat : Deg) :
    Except Err DemBuffer := do
  let b := b.clearData
  let cLon := GlobalCell.fromDegrees lon b.demTileSize
  let cLat := GlobalCell.fromDegrees lat b.demTileSize
  let west : GlobalCell := ⟨cLon.value - b.bufferWidth.tdiv 2⟩
  let north : GlobalCell := ⟨cLat.value + b.bufferHeight.tdiv 2⟩
  let b := { b with
    centerGlobalCellLon := cLon
    centerGlobalCellLat := cLat
    bufferWestEdge := west
    bufferEastEdge := ⟨west.value + b.bufferWidth⟩
    bufferNorthEdge := north
    bufferSouthEdge := ⟨north.value - b.bufferHeight⟩ }
  let b ← b.updateBufferArea fuel 0 0 b.bufferWidth b.bufferHeight
  .ok { b with state := .inited }

/-- `DemBuffer::try_partial_update` (source name `try_partial_update`):
intersect the old coverage with the coverage of the proposed new position;
with a non-negative intersection perform the block move, commit the new
edges/center and page in the missing area, otherwise report that a full
reload is required. -/
def DemBuffer.tryPartUpdate (fuel : Nat) (b : DemBuffer) (lon lat : Deg) :
    Except Err (BufferUpdateDecision × DemBuffer) :=
  let newWest := (GlobalCell.fromDegrees lon b.demTileSize).value -
    b.bufferWidth.tdiv 2
  let newEast := newWest + b.bufferWidth
  let newNorth := (GlobalCell.fromDegrees lat b.demTileSize).value +
    b.bufferHeight.tdiv 2
  let newSouth := newNorth - b.bufferHeight
  let iWest := max b.bufferWestEdge.value newWest
  let iEast := min b.bufferEastEdge.value newEast
  let iNorth := min b.bufferNorthEdge.value newNorth
  let iSouth := max b.bufferSouthEdge.value newSouth
  let sourceX0 := iWest - b.bufferWestEdge.value
  let sourceY0 := b.bufferNorthEdge.value - iNorth
  let blockWidth := iEast - iWest
  let blockHeight := iNorth - iSouth
  if blockWidth ≥ 0 ∧ blockHeight ≥ 0 then do
    let destX0 := iWest - newWest
    let destY0 := newNorth - iNorth
    let b ← b.moveDemBlock sourceX0 sourceY0 blockWidth blockHeight
      destX0 destY0
    let b := { b with
      centerGlobalCellLon := GlobalCell.fromDegrees lon b.demTileSize
      centerGlobalCellLat := GlobalCell.fromDegrees lat b.demTileSize
      bufferNorthEdge := ⟨newNorth⟩
      bufferSouthEdge := ⟨newSouth⟩
      bufferWestEdge := ⟨newWest⟩
      bufferEastEdge := ⟨newEast⟩ }
    let b ← b.fillMissingDataAfterMove fuel
    .ok (.partUpdatePerformed, b)
  else .ok (.entireBufferReloadRequired, b)

/-- `DemBuffer::update_map_position`. -/
def DemBuffer.updateMapPosition (fuel : Nat) (b : DemBuffer) (lon lat : Deg)
    (visibleAreaWidth visibleAreaHeight : Int) : Except Err DemBuffer :=
  let b := b.clearUpdateLog
  if b.state = .uninit then b.reloadEntireBuffer fuel lon lat
  else
    if b.isBufferUpdateRequired lon lat visibleAreaWidth visibleAreaHeight
    then do
      let r ← b.tryPartUpdate fuel lon lat
      if r.1 = .entireBufferReloadRequired
      then r.2.reloadEntireBuffer fuel lon lat
      else .ok r.2
    else .ok b

/-- Replace only the `data` field of a buffer (proof-side shorthand). -/
def DemBuffer.withData (b : DemBuffer) (d : List Int) : DemBuffer :=
  { b with data := d }

/-- The flat index of buffer cell `(x, y)` (proof-side shorthand for the
`(y * width + x) as usize` of the source). -/
def DemBuffer.cellIdx (b : DemBuffer) (x y : Int) : Nat :=
  (y * b.bufferWidth + x).toNat

/-- All buffer fields other than `data`, `slices_loaded` and `block_move`
agree. -/
def DemBuffer.sameGeom (b b' : DemBuffer) : Prop :=
  b'.bufferWidth = b.bufferWidth ∧ b'.bufferHeight = b.bufferHeight ∧
  b'.demTileSize = b.demTileSize ∧
  b'.minCellDistanceToEdgeBeforeRefresh =
    b.minCellDistanceToEdgeBeforeRefresh ∧
  b'.state = b.state ∧
  b'.centerGlobalCellLon = b.centerGlobalCellLon ∧
  b'.centerGlobalCellLat = b.centerGlobalCellLat ∧
  b'.bufferWestEdge = b.bufferWestEdge ∧
  b'.bufferEastEdge = b.bufferEastEdge ∧
  b'.bufferNorthEdge = b.bufferNorthEdge ∧
  b'.bufferSouthEdge = b.bufferSouthEdge

/-! ### Helper lemmas: Rust `%` (`Int.tmod`) and Euclidean `emod` -/

theorem tmodBounds (a : Int) {b : Int} (hb : 0 < b) :
    -b < a.tmod b ∧ a.tmod b < b := by
  cases b with
  | negSucc n => exact absurd hb (by rw [Int.negSucc_eq]; omega)
  | ofNat n =>
    have hn : (0 : Int) < (n : Int) := hb
    have hn2 : 0 < n := by exact_mod_cast hn
    cases a with
    | ofNat m =>
      have h1 : (Int.ofNat m).tmod (Int.ofNat n) = ((m % n : Nat) : Int) := rfl
      have h2 := Nat.mod_lt m hn2
      rw [h1, show Int.ofNat n = ((n : Nat) : Int) from rfl]
      clear hb
      omega
    | negSucc m =>
      have h1 : (Int.negSucc m).tmod (Int.ofNat n) =
        -((m.succ % n : Nat) : Int) := rfl
      have h2 := Nat.mod_lt m.succ hn2
      rw [h1, show Int.ofNat n = ((n : Nat) : Int) from rfl]
      clear hb
      omega

theorem tmodNonpos (a b : Int) (ha : a < 0) : a.tmod b ≤ 0 := by
  cases a with
  | ofNat m => exact absurd ha (by rw [show Int.ofNat m = ((m : Nat) : Int) from rfl]; omega)
  | negSucc m =>
    cases b with
    | ofNat n =>
      have h1 : (Int.negSucc m).tmod (Int.ofNat n) =
        -((m.succ % n : Nat) : Int) := rfl
      rw [h1]; omega
    | negSucc n =>
      have h1 : (Int.negSucc m).tmod (Int.negSucc n) =
        -((m.succ % n.succ : Nat) : Int) := rfl
      rw [h1]; omega

theorem emodOfTmod (a : Int) {b : Int} (hb : 0 < b) :
    a % b = if a.tmod b < 0 then a.tmod b + b else a.tmod b := by
  have h1 : a % b = a.tmod b % b := by
    conv_lhs => rw [← Int.tdiv_add_tmod a b]
    rw [Int.add_comm, Int.add_mul_emod_self_left]
  rcases lt_or_le (a.tmod b) 0 with h | h
  · rw [if_pos h, h1, ← Int.add_emod_self,
      Int.emod_eq_of_lt (by have := (tmodBounds a hb).1; omega) (by omega)]
  · rw [if_neg (not_lt.mpr h), h1,
      Int.emod_eq_of_lt h (tmodBounds a hb).2]

/-! ### Helper lemmas: the local-cell conversions -/

theorem toLocalCellLatEq (g : GlobalCell) {t : Int} (ht : 0 < t) :
    (g.toLocalCellLat t).value = t - 1 - g.value % t := by
  have hb := tmodBounds g.value ht
  have he := emodOfTmod g.value ht
  unfold GlobalCell.toLocalCellLat
  rcases lt_or_le (g.value.tmod t) 0 with h | h
  · rw [if_pos h] at he
    have hneg : g.value < 0 := by
      rcases lt_or_le g.value 0 with hv | hv
      · exact hv
      · exact absurd (Int.tmod_nonneg t hv) (by omega)
    rw [if_pos hneg]
    split_ifs with h2 <;> simp only [] <;> omega
  · rw [if_neg (not_lt.mpr h)] at he
    split_ifs with h1 h2 <;> simp only []
    · have h3 := tmodNonpos g.value t h1
      omega
    · have h3 := tmodNonpos g.value t h1
      omega
    · omega

theorem toLocalCellLatRange (g : GlobalCell) {t : Int} (ht : 0 < t) :
    0 ≤ (g.toLocalCellLat t).value ∧ (g.toLocalCellLat t).value < t := by
  rw [toLocalCellLatEq g ht]
  have h1 := Int.emod_nonneg g.value (by omega : t ≠ 0)
  have h2 := Int.emod_lt_of_pos g.value ht
  omega

theorem toLocalCellLonRange (g : GlobalCell) {t : Int} (ht : 0 < t) :
    0 ≤ (g.toLocalCellLon t).value ∧ (g.toLocalCellLon t).value < t := by
  have hb := tmodBounds g.value ht
  unfold GlobalCell.toLocalCellLon
  split_ifs with h <;> simp only [] <;> omega

/-! ### Helper lemmas: `List.getD`, `List.set`, `intRange0` -/

theorem getDConsSucc (a : Int) (l : List Int) (n : Nat) (d : Int) :
    (a :: l).getD (n + 1) d = l.getD n d := rfl

theorem getDSet (l : List Int) (i j : Nat) (v : Int) :
    (l.set i v).getD j 0 = if i = j ∧ j < l.length then v else l.getD j 0 := by
  induction l generalizing i j with
  | nil => simp [List.set]
  | cons a l ih =>
    cases i with
    | zero =>
      cases j with
      | zero => simp
      | succ j => simp [getDConsSucc]
    | succ i =>
      cases j with
      | zero => simp
      | succ j =>
        simp only [List.set, getDConsSucc, ih, List.length_cons]
        by_cases h : i = j ∧ j < l.length
        · rw [if_pos h, if_pos (by omega)]
        · rw [if_neg h, if_neg (by omega)]

theorem getDMapZero (l : List Int) (n : Nat) :
    (l.map (fun _ => (0 : Int))).getD n 0 = 0 := by
  induction l generalizing n with
  | nil => rfl
  | cons a l ih =>
    cases n with
    | zero => rfl
    | succ n => exact ih n

theorem memIntRange0 {x n : Int} : x ∈ intRange0 n ↔ 0 ≤ x ∧ x < n := by
  unfold intRange0
  rw [List.mem_map]
  constructor
  · rintro ⟨i, hi, rfl⟩
    rw [List.mem_range] at hi
    omega
  · rintro ⟨h1, h2⟩
    refine ⟨x.toNat, ?_, by omega⟩
    rw [List.mem_range]
    omega

theorem nodupIntRange0 (n : Int) : (intRange0 n).Nodup := by
  unfold intRange0
  exact List.Nodup.map (fun a b h => by exact_mod_cast h) (List.nodup_range _)

/-- Buffer indices `(y * W + x).toNat` of distinct in-range cell coordinates
are distinct. -/
theorem idxInj {w cx cy cx' cy' : Int} (hx : 0 ≤ cx) (hx2 : cx < w)
    (hx' : 0 ≤ cx') (hx2' : cx' < w) (hy : 0 ≤ cy) (hy' : 0 ≤ cy')
    (h : (cy * w + cx).toNat = (cy' * w + cx').toNat) : cy = cy' ∧ cx = cx' := by
  have hw : (0 : Int) < w := by omega
  have h0 : 0 ≤ cy * w + cx := add_nonneg (mul_nonneg hy hw.le) hx
  have h0' : 0 ≤ cy' * w + cx' := add_nonneg (mul_nonneg hy' hw.le) hx'
  have heq : cy * w + cx = cy' * w + cx' := by omega
  rcases lt_trichotomy cy cy' with hl | hl | hl
  · have h1 : 1 * w ≤ (cy' - cy) * w :=
      mul_le_mul_of_nonneg_right (by omega) hw.le
    have h2 : (cy' - cy) * w = cx - cx' := by linear_combination -heq
    omega
  · refine ⟨hl, ?_⟩
    rw [hl] at heq
    omega
  · have h1 : 1 * w ≤ (cy - cy') * w :=
      mul_le_mul_of_nonneg_right (by omega) hw.le
    have h2 : (cy - cy') * w = cx' - cx := by linear_combination heq
    omega

/-! ### Small elimination helpers -/

theorem mkDegOk {num den : Int} {d : Deg} (h : mkDeg num den = .ok d) :
    d = ⟨num, den⟩ ∧ -181 * den < num ∧ num < 180 * den := by
  unfold mkDeg at h
  split_ifs at h with hc
  exact ⟨(Except.ok.inj h).symm, hc.1, hc.2⟩

/-! ### Claim C8: `to_local_cell_lat` -/

/-- Claim C8 (confirmed): for every `GlobalCell` and positive tile size,
`to_local_cell_lat` lands in `[0, dem_tile_size)`; for non-negative values it
is `t - 1 - value % t` (Rust `%` = `Int.tmod`), for negative values it is
`-1 - value % t` adjusted into range by adding `t`; and on both sides of zero
it equals `t - 1 - (value emod t)`, the exact latitude axis inversion. -/
theorem c8_to_local_cell_lat (g : GlobalCell) (t : Int) (ht : 0 < t) :
    (0 ≤ (g.toLocalCellLat t).value ∧ (g.toLocalCellLat t).value < t) ∧
    (0 ≤ g.value → (g.toLocalCellLat t).value = t - 1 - g.value.tmod t) ∧
    (g.value < 0 →
      (g.toLocalCellLat t).value =
        (if -1 - g.value.tmod t < 0 then -1 - g.value.tmod t + t
         else -1 - g.value.tmod t)) ∧
    (g.toLocalCellLat t).value = t - 1 - g.value % t := by
  refine ⟨toLocalCellLatRange g ht, ?_, ?_, toLocalCellLatEq g ht⟩
  · intro hv
    unfold GlobalCell.toLocalCellLat
    rw [if_neg (by omega : ¬g.value < 0)]
  · intro hv
    unfold GlobalCell.toLocalCellLat
    rw [if_pos hv]
    split_ifs <;> rfl

/-- Witness for C8 at `g = -11`, `t = 10` (the source's own test case
`test_to_local_cell_lat_negative_5`). -/
theorem c8_witness :
    (GlobalCell.toLocalCellLat ⟨-11⟩ 10).value = 10 - 1 - (-11 : Int) % 10 :=
  (c8_to_local_cell_lat ⟨-11⟩ 10 (by decide)).2.2.2

/-! ### Claim C10: the `CellKey` of global cell (0,0) is the sentinel -/

/-- A 1×1 initialized buffer whose single cell holds the `CellKey` encoding
of global cell (0,0) — which is the integer 0. -/
def originCellBuffer : DemBuffer :=
  { DemBuffer.new 1 1 4 2 with state := .inited, data := [(0 : Int)] }

/-- Claim C10 (confirmed): `CellKey::from_cell_coords(0, 0)` is the `i32`
value 0, exactly the sentinel `clear_data` writes, so a buffer whose cell
holds global cell (0,0) is indistinguishable from a cleared buffer:
`prop_all_cells_are_set` is false on it and `set_cell`'s overwrite guard
does not fire when it is overwritten. -/
theorem c10_zero_key_sentinel :
    CellKey.fromCellCoords ⟨0⟩ ⟨0⟩ = .ok ⟨0⟩ ∧
    originCellBuffer.data = originCellBuffer.clearData.data ∧
    originCellBuffer.propAllCellsAreSet = false ∧
    ∃ b', originCellBuffer.setCell 0 0 ⟨99⟩ = .ok b' :=
  ⟨rfl, rfl, rfl, ⟨_, rfl⟩⟩

/-! ### Claim C5: `is_buffer_update_required` -/

/-- The update-required predicate exactly as claim C5 words it: each of the
four visible edges is "the center's GlobalCell plus/minus half the visible
width/height" (so the east edge is `center + vw/2`, not
`center - vw/2 + vw`). -/
def specUpdateRequired (b : DemBuffer) (lon lat : Deg) (vw vh : Int) : Bool :=
  let cLon := (GlobalCell.fromDegrees lon b.demTileSize).value
  let cLat := (GlobalCell.fromDegrees lat b.demTileSize).value
  decide (cLon - vw.tdiv 2 - b.bufferWestEdge.value <
    b.minCellDistanceToEdgeBeforeRefresh) ||
  decide (b.bufferEastEdge.value - (cLon + vw.tdiv 2) <
    b.minCellDistanceToEdgeBeforeRefresh) ||
  decide (b.bufferNorthEdge.value - (cLat + vh.tdiv 2) <
    b.minCellDistanceToEdgeBeforeRefresh) ||
  decide (cLat - vh.tdiv 2 - b.bufferSouthEdge.value <
    b.minCellDistanceToEdgeBeforeRefresh)

/-- An initialized buffer used to separate `is_buffer_update_required` from
claim C5's reading of it (tile size 1, margin 2, east edge at cell 10). -/
def demoC5 : DemBuffer :=
  { DemBuffer.new 1 1 1 2 with
    state := .inited
    bufferWestEdge := ⟨-100⟩
    bufferEastEdge := ⟨10⟩
    bufferNorthEdge := ⟨100⟩
    bufferSouthEdge := ⟨-100⟩ }

/-- Counterexample to claim C5 as stated: with an odd visible width 5 the
code's east edge is `center - 5/2 + 5 = center + 3`, not `center + 5/2 =
center + 2`; at center longitude 6 the code requires an update while the
claim's four-distance formula does not. -/
theorem c5_counterexample :
    demoC5.isBufferUpdateRequired ⟨6, 1⟩ ⟨0, 1⟩ 5 4 = true ∧
    specUpdateRequired demoC5 ⟨6, 1⟩ ⟨0, 1⟩ 5 4 = false := by
  refine ⟨rfl, rfl⟩

/-- Claim C5 as amended: `is_buffer_update_required` is true iff one of the
four edge distances is below the margin, with the visible edges computed the
way the code does: west `= center - vw/2`, east `= west + vw`,
north `= center + vh/2`, south `= north - vh`.  The function is pure: it is
a function of the buffer and the arguments only. -/
theorem c5_update_required_iff (b : DemBuffer) (lon lat : Deg) (vw vh : Int) :
    b.isBufferUpdateRequired lon lat vw vh = true ↔
      ((GlobalCell.fromDegrees lon b.demTileSize).value - vw.tdiv 2 -
          b.bufferWestEdge.value < b.minCellDistanceToEdgeBeforeRefresh ∨
        b.bufferEastEdge.value -
          ((GlobalCell.fromDegrees lon b.demTileSize).value - vw.tdiv 2 + vw) <
          b.minCellDistanceToEdgeBeforeRefresh ∨
        b.bufferNorthEdge.value -
          ((GlobalCell.fromDegrees lat b.demTileSize).value + vh.tdiv 2) <
          b.minCellDistanceToEdgeBeforeRefresh ∨
        (GlobalCell.fromDegrees lat b.demTileSize).value + vh.tdiv 2 - vh -
          b.bufferSouthEdge.value < b.minCellDistanceToEdgeBeforeRefresh) := by
  unfold DemBuffer.isBufferUpdateRequired
  simp only [Bool.or_eq_true, decide_eq_true_eq]
  tauto

/-! ### Claim C7: `from_degrees` truncates toward zero -/

/-- Counterexample to claim C7 as stated: at the valid degree value `-1/4`
(exactly representable in `f32`) and tile size 2, `from_degrees` returns 0
(Rust's `as i32` cast truncates toward zero) while the true mathematical
floor of `-1/4 * 2 = -1/2` is `-1`. -/
theorem c7_counterexample :
    GlobalCell.fromDegrees ⟨-1, 4⟩ 2 = ⟨0⟩ ∧
    ⌊degValue ⟨-1, 4⟩ * ((2 : Int) : ℚ)⌋ = -1 ∧
    0 < (4 : Int) ∧ -181 * (4 : Int) < -1 ∧ (-1 : Int) < 180 * 4 ∧
    (0 : Int) ≠ -1 := by
  refine ⟨rfl, ?_, by decide, by decide, by decide, by decide⟩
  have h : degValue ⟨-1, 4⟩ * ((2 : Int) : ℚ) =
      ((-1 : Int) : ℚ) / ((2 : Nat) : ℚ) := by
    unfold degValue
    norm_num
  rw [h, Rat.floor_intCast_div_natCast]
  decide

/-- Claim C7 as amended: `from_degrees` computes the truncation toward zero
of `deg * dem_tile_size` — the floor for a non-negative product and the
ceiling for a negative one. -/
theorem c7_from_degrees_trunc (d : Deg) (t : Int) (hden : 0 < d.den) :
    (GlobalCell.fromDegrees d t).value =
      if 0 ≤ degValue d * (t : ℚ) then ⌊degValue d * (t : ℚ)⌋
      else ⌈degValue d * (t : ℚ)⌉ := by
  have hNat : ((d.den.toNat : Nat) : ℚ) = ((d.den : Int) : ℚ) := by
    exact_mod_cast Int.toNat_of_nonneg hden.le
  have hq : degValue d * (t : ℚ) =
      ((d.num * t : Int) : ℚ) / ((d.den.toNat : Nat) : ℚ) := by
    rw [hNat]
    unfold degValue
    push_cast
    ring
  have hQden : (0 : ℚ) < ((d.den.toNat : Nat) : ℚ) := by
    rw [hNat]; exact_mod_cast hden
  have hfloor : ⌊degValue d * (t : ℚ)⌋ = (d.num * t) / d.den := by
    rw [hq, Rat.floor_intCast_div_natCast, Int.toNat_of_nonneg hden.le]
  rcases le_or_lt 0 (d.num * t) with hN | hN
  · rw [if_pos (by rw [hq]; exact div_nonneg (by exact_mod_cast hN) hQden.le),
      hfloor]
    simp only [GlobalCell.fromDegrees]
    rw [Int.tdiv_eq_ediv hN hden.le]
  · rw [if_neg (not_le.mpr (by
      rw [hq]
      exact div_neg_of_neg_of_pos (by exact_mod_cast hN) hQden))]
    have hceil : ⌈degValue d * (t : ℚ)⌉ = -((-(d.num * t)) / d.den) := by
      rw [show degValue d * (t : ℚ) = -(-(degValue d * (t : ℚ))) by ring,
        Int.ceil_neg]
      congr 1
      rw [hq, show -(((d.num * t : Int) : ℚ) / ((d.den.toNat : Nat) : ℚ)) =
          (((-(d.num * t) : Int)) : ℚ) / ((d.den.toNat : Nat) : ℚ) by
        push_cast; ring]
      rw [Rat.floor_intCast_div_natCast, Int.toNat_of_nonneg hden.le]
    rw [hceil]
    simp only [GlobalCell.fromDegrees]
    have h1 : (-(d.num * t)).tdiv d.den = -((d.num * t).tdiv d.den) :=
      Int.neg_tdiv _ _
    have h2 : (-(d.num * t)).tdiv d.den = (-(d.num * t)) / d.den :=
      Int.tdiv_eq_ediv (by omega) hden.le
    omega

/-- Witness for the amended C7 at the counterexample's input. -/
theorem c7_witness :
    (GlobalCell.fromDegrees ⟨-1, 4⟩ 2).value =
      if 0 ≤ degValue ⟨-1, 4⟩ * ((2 : Int) : ℚ)
      then ⌊degValue ⟨-1, 4⟩ * ((2 : Int) : ℚ)⌋
      else ⌈degValue ⟨-1, 4⟩ * ((2 : Int) : ℚ)⌉ :=
  c7_from_degrees_trunc ⟨-1, 4⟩ 2 (by decide)

/-! ### Claim C9: `to_tile_degrees` -/

/-- Counterexample to claim C9 as stated: at cell `-32490` with tile size
180 the quotient is `-180.5`; the code returns it unchanged (its
renormalization triggers only at `≤ -181` or `≥ 180`), so the result is not
in the claimed range `(-180, 180]` and no 360 was added. -/
theorem c9_counterexample :
    GlobalCell.toTileDegrees ⟨-32490⟩ 180 = .ok ⟨-32490, 180⟩ ∧
    degValue ⟨-32490, 180⟩ < -180 ∧ 0 < (180 : Int) := by
  refine ⟨rfl, ?_, by decide⟩
  unfold degValue
  norm_num

/-- Claim C9 as amended: for a positive tile size, a successful
`to_tile_degrees` returns `value / dem_tile_size`, with 360 added when the
quotient is `≤ -181` and 360 subtracted when it is `≥ 180`; every successful
result lies in the `Deg::new` validity range `(-181, 180)` (not in
`(-180, 180]` as the claim stated). -/
theorem c9_to_tile_degrees (g : GlobalCell) (t : Int) (ht : 0 < t) (d : Deg)
    (hok : g.toTileDegrees t = .ok d) :
    (-181 < degValue d ∧ degValue d < 180) ∧
    degValue d =
      (if (g.value : ℚ) / (t : ℚ) ≤ -181 then (g.value : ℚ) / (t : ℚ) + 360
       else if (180 : ℚ) ≤ (g.value : ℚ) / (t : ℚ) then
         (g.value : ℚ) / (t : ℚ) - 360
       else (g.value : ℚ) / (t : ℚ)) := by
  have htQ : (0 : ℚ) < (t : ℚ) := by exact_mod_cast ht
  have htne : (t : ℚ) ≠ 0 := ne_of_gt htQ
  have hBounds : ∀ X : Int, -181 * t < X → X < 180 * t →
      (-181 < ((X : ℚ) / (t : ℚ)) ∧ ((X : ℚ) / (t : ℚ)) < 180) := by
    intro X hlo hhi
    constructor
    · rw [lt_div_iff₀ htQ]; exact_mod_cast hlo
    · rw [div_lt_iff₀ htQ]; exact_mod_cast hhi
  have hc1 : ((g.value : ℚ) / (t : ℚ) ≤ -181) ↔ (g.value ≤ -181 * t) := by
    rw [div_le_iff₀ htQ]
    constructor <;> intro hx <;> exact_mod_cast hx
  have hc2 : ((180 : ℚ) ≤ (g.value : ℚ) / (t : ℚ)) ↔ (180 * t ≤ g.value) := by
    rw [le_div_iff₀ htQ]
    constructor <;> intro hx <;> exact_mod_cast hx
  unfold GlobalCell.toTileDegrees at hok
  split_ifs at hok with h1 h2
  · obtain ⟨rfl, hlo, hhi⟩ := mkDegOk hok
    refine ⟨hBounds _ hlo hhi, ?_⟩
    rw [if_pos (hc1.mpr h1)]
    unfold degValue
    push_cast
    field_simp
  · obtain ⟨rfl, hlo, hhi⟩ := mkDegOk hok
    refine ⟨hBounds _ hlo hhi, ?_⟩
    rw [if_neg (by rw [hc1]; omega), if_pos (hc2.mpr (by omega))]
    unfold degValue
    push_cast
    field_simp
    ring
  · obtain ⟨rfl, hlo, hhi⟩ := mkDegOk hok
    refine ⟨hBounds _ hlo hhi, ?_⟩
    rw [if_neg (by rw [hc1]; omega), if_neg (by rw [hc2]; omega)]
    unfold degValue
    push_cast
    ring

/-- Witness for the amended C9 at cell 32400 (longitude 180°), tile size
180: the code wraps it to `-180` exactly. -/
theorem c9_witness :
    (-181 < degValue ⟨-32400, 180⟩ ∧ degValue ⟨-32400, 180⟩ < 180) ∧
    degValue ⟨-32400, 180⟩ =
      (if ((32400 : Int) : ℚ) / ((180 : Int) : ℚ) ≤ -181 then
        ((32400 : Int) : ℚ) / ((180 : Int) : ℚ) + 360
       else if (180 : ℚ) ≤ ((32400 : Int) : ℚ) / ((180 : Int) : ℚ) then
         ((32400 : Int) : ℚ) / ((180 : Int) : ℚ) - 360
       else ((32400 : Int) : ℚ) / ((180 : Int) : ℚ)) :=
  c9_to_tile_degrees ⟨32400⟩ 180 (by decide) ⟨-32400, 180⟩ rfl

/-! ### Monad and record plumbing -/

theorem exceptBindOk {α β : Type} (a : α) (f : α → Except Err β) :
    (Except.ok a : Except Err α) >>= f = f a := rfl

theorem exceptBindErr {α β : Type} (e : Err) (f : α → Except Err β) :
    (Except.error e : Except Err α) >>= f = .error e := rfl

theorem sameGeomRefl (b : DemBuffer) : b.sameGeom b := by
  unfold DemBuffer.sameGeom
  exact ⟨rfl, rfl, rfl, rfl, rfl, rfl, rfl, rfl, rfl, rfl, rfl⟩

theorem sameGeomTrans {a b c : DemBuffer} (h1 : a.sameGeom b)
    (h2 : b.sameGeom c) : a.sameGeom c := by
  unfold DemBuffer.sameGeom at *
  obtain ⟨e1, e2, e3, e4, e5, e6, e7, e8, e9, e10, e11⟩ := h1
  obtain ⟨f1, f2, f3, f4, f5, f6, f7, f8, f9, f10, f11⟩ := h2
  exact ⟨f1.trans e1, f2.trans e2, f3.trans e3, f4.trans e4, f5.trans e5,
    f6.trans e6, f7.trans e7, f8.trans e8, f9.trans e9, f10.trans e10,
    f11.trans e11⟩

theorem withDataGeom (b : DemBuffer) (d : List Int) :
    b.sameGeom (b.withData d) := sameGeomRefl b

theorem withDataBlockMove (b : DemBuffer) (d : List Int) :
    (b.withData d).blockMove = b.blockMove := rfl

theorem cellIdxCongr {b b' : DemBuffer} (hW : b'.bufferWidth = b.bufferWidth)
    (x y : Int) : b'.cellIdx x y = b.cellIdx x y := by
  unfold DemBuffer.cellIdx
  rw [hW]

/-! ### Which error each helper can raise -/

theorem fromCellCoordsErr {x y : GlobalCell} {e : Err}
    (h : CellKey.fromCellCoords x y = .error e) : e = .cellCoordsOOB := by
  unfold CellKey.fromCellCoords at h
  split_ifs at h
  exact (Except.error.inj h).symm

theorem toCellCoordsErr {k : CellKey} {e : Err}
    (h : k.toCellCoords = .error e) : e = .cellCoordsOOB := by
  simp only [CellKey.toCellCoords] at h
  split_ifs at h
  exact (Except.error.inj h).symm

theorem getCellErr {b : DemBuffer} {x y : Int} {e : Err}
    (h : b.getCell x y = .error e) : e = .indexOOB := by
  simp only [DemBuffer.getCell] at h
  split_ifs at h
  exact (Except.error.inj h).symm

theorem mkDegErr {num den : Int} {e : Err} (h : mkDeg num den = .error e) :
    e = .degOOB := by
  unfold mkDeg at h
  split_ifs at h
  exact (Except.error.inj h).symm

theorem toTileDegreesErr {g : GlobalCell} {t : Int} {e : Err}
    (h : g.toTileDegrees t = .error e) : e = .degOOB := by
  unfold GlobalCell.toTileDegrees at h
  split_ifs at h <;> exact mkDegErr h

/-! ### `set_cell` and the `load_tile_slice` inner loops -/

theorem setCellOk {b : DemBuffer} {x y : Int} {v : CellKey} {b' : DemBuffer}
    (h : b.setCell x y v = .ok b') :
    b' = b.withData (b.data.set (b.cellIdx x y) v.value) ∧
    0 ≤ y * b.bufferWidth + x ∧
    (y * b.bufferWidth + x) < (b.data.length : Int) ∧
    b.data.getD (b.cellIdx x y) 0 = 0 := by
  simp only [DemBuffer.setCell] at h
  split_ifs at h with h1 h2
  exact ⟨(Except.ok.inj h).symm, h1.1, h1.2,
    by simpa [DemBuffer.cellIdx] using h2⟩

theorem setCellNoOverwrite {b : DemBuffer} {x y : Int} {v : CellKey}
    (hz : b.data.getD (b.cellIdx x y) 0 = 0) :
    b.setCell x y v ≠ .error .overwrite := by
  simp only [DemBuffer.setCell, DemBuffer.cellIdx] at hz ⊢
  split_ifs with h1 h2 <;> simp_all

theorem sliceCellOk {b : DemBuffer} {s : TileSlice} {lonGC latGC : GlobalCell}
    {y x : Int} {b' : DemBuffer}
    (h : b.sliceCell s lonGC latGC y x = .ok b') :
    ∃ v, b' = b.withData
      (b.data.set (b.cellIdx (s.sliceBufferX0 + x) (s.sliceBufferY0 + y)) v) := by
  simp only [DemBuffer.sliceCell] at h
  split_ifs at h
  cases hk : CellKey.fromCellCoords ⟨lonGC.value + (s.sliceTileX0.value + x)⟩
      ⟨latGC.value + (b.demTileSize - 1 - (s.sliceTileY0.value + y))⟩ with
  | error e => rw [hk, exceptBindErr] at h; cases h
  | ok key =>
    rw [hk, exceptBindOk] at h
    cases hs : b.setCell (s.sliceBufferX0 + x) (s.sliceBufferY0 + y) key with
    | error e => rw [hs, exceptBindErr] at h; cases h
    | ok b2 =>
      rw [hs, exceptBindOk] at h
      cases hg : b2.getCell (s.sliceBufferX0 + x) (s.sliceBufferY0 + y) with
      | error e => rw [hg, exceptBindErr] at h; cases h
      | ok control =>
        rw [hg, exceptBindOk] at h
        cases hc : control.toCellCoords with
        | error e => rw [hc, exceptBindErr] at h; cases h
        | ok cc =>
          rw [hc, exceptBindOk] at h
          split_ifs at h
          exact ⟨key.value, (Except.ok.inj h) ▸ (setCellOk hs).1⟩

theorem sliceCellNoOverwrite {b : DemBuffer} {s : TileSlice}
    {lonGC latGC : GlobalCell} {y x : Int}
    (hz : b.data.getD (b.cellIdx (s.sliceBufferX0 + x) (s.sliceBufferY0 + y)) 0
      = 0) :
    b.sliceCell s lonGC latGC y x ≠ .error .overwrite := by
  simp only [DemBuffer.sliceCell]
  split_ifs <;> try simp
  cases hk : CellKey.fromCellCoords ⟨lonGC.value + (s.sliceTileX0.value + x)⟩
      ⟨latGC.value + (b.demTileSize - 1 - (s.sliceTileY0.value + y))⟩ with
  | error e => rw [exceptBindErr, fromCellCoordsErr hk]; simp
  | ok key =>
    rw [exceptBindOk]
    cases hs : b.setCell (s.sliceBufferX0 + x) (s.sliceBufferY0 + y) key with
    | error e =>
      rw [exceptBindErr]
      have hthis := @setCellNoOverwrite b (s.sliceBufferX0 + x)
        (s.sliceBufferY0 + y) key hz
      rw [hs] at hthis
      simpa using hthis
    | ok b2 =>
      rw [exceptBindOk]
      cases hg : b2.getCell (s.sliceBufferX0 + x) (s.sliceBufferY0 + y) with
      | error e => rw [exceptBindErr, getCellErr hg]; simp
      | ok control =>
        rw [exceptBindOk]
        cases hc : control.toCellCoords with
        | error e => rw [exceptBindErr, toCellCoordsErr hc]; simp
        | ok cc =>
          rw [exceptBindOk]
          split_ifs <;> simp

theorem sliceColsFrame {s : TileSlice} {lonGC latGC : GlobalCell} {y : Int} :
    ∀ (xs : List Int) (b b' : DemBuffer),
    b.sliceCols s lonGC latGC y xs = .ok b' →
    b.sameGeom b' ∧ b'.blockMove = b.blockMove ∧
    b'.slicesLoaded = b.slicesLoaded ∧
    b'.data.length = b.data.length ∧
    ∀ n : Nat,
      (∀ x ∈ xs, n ≠ b.cellIdx (s.sliceBufferX0 + x) (s.sliceBufferY0 + y)) →
      b'.data.getD n 0 = b.data.getD n 0 := by
  intro xs
  induction xs with
  | nil =>
    intro b b' h
    simp only [DemBuffer.sliceCols] at h
    cases h
    exact ⟨sameGeomRefl b, rfl, rfl, rfl, fun n _ => rfl⟩
  | cons x rest ih =>
    intro b b' h
    simp only [DemBuffer.sliceCols] at h
    cases hc : b.sliceCell s lonGC latGC y x with
    | error e => rw [hc, exceptBindErr] at h; cases h
    | ok b2 =>
      rw [hc, exceptBindOk] at h
      obtain ⟨v, rfl⟩ := sliceCellOk hc
      obtain ⟨hg, hbm, hsl, hlen, hframe⟩ := ih _ _ h
      refine ⟨sameGeomTrans (withDataGeom b _) hg, ?_, ?_, ?_, ?_⟩
      · rw [hbm]; rfl
      · rw [hsl]; rfl
      · rw [hlen]
        simp [DemBuffer.withData]
      · intro n hn
        rw [hframe n (fun x' hx' => hn x' (List.mem_cons_of_mem x hx'))]
        simp only [DemBuffer.withData]
        rw [getDSet]
        rw [if_neg]
        rintro ⟨hEq, -⟩
        exact hn x (List.mem_cons_self x rest) hEq.symm

theorem sliceColsNoOverwrite {s : TileSlice} {lonGC latGC : GlobalCell}
    {y : Int} :
    ∀ (xs : List Int) (b : DemBuffer),
    xs.Nodup →
    (∀ x ∈ xs, 0 ≤ s.sliceBufferX0 + x ∧
      s.sliceBufferX0 + x < b.bufferWidth) →
    0 ≤ s.sliceBufferY0 + y →
    (∀ x ∈ xs,
      b.data.getD (b.cellIdx (s.sliceBufferX0 + x) (s.sliceBufferY0 + y)) 0
        = 0) →
    b.sliceCols s lonGC latGC y xs ≠ .error .overwrite := by
  intro xs
  induction xs with
  | nil =>
    intro b _ _ _ _
    simp [DemBuffer.sliceCols]
  | cons x rest ih =>
    intro b hnd hx hy hz
    simp only [DemBuffer.sliceCols]
    cases hc : b.sliceCell s lonGC latGC y x with
    | error e =>
      rw [exceptBindErr]
      have hno := @sliceCellNoOverwrite b s lonGC latGC y x
        (hz x (List.mem_cons_self x rest))
      rw [hc] at hno
      simpa using hno
    | ok b2 =>
      rw [exceptBindOk]
      obtain ⟨v, rfl⟩ := sliceCellOk hc
      refine ih _ hnd.of_cons ?_ hy ?_
      · intro x' hx'
        exact hx x' (List.mem_cons_of_mem x hx')
      · intro x' hx'
        have hxne : x ≠ x' := by
          rintro rfl
          exact (List.nodup_cons.mp hnd).1 hx'
        have hidx : b.cellIdx (s.sliceBufferX0 + x') (s.sliceBufferY0 + y) ≠
            b.cellIdx (s.sliceBufferX0 + x) (s.sliceBufferY0 + y) := by
          intro hEq
          unfold DemBuffer.cellIdx at hEq
          have hb1 := hx x (List.mem_cons_self x rest)
          have hb2 := hx x' (List.mem_cons_of_mem x hx')
          have := idxInj hb2.1 hb2.2 hb1.1 hb1.2 hy hy hEq
          omega
        have hcongr : (b.withData (b.data.set
            (b.cellIdx (s.sliceBufferX0 + x) (s.sliceBufferY0 + y)) v)).cellIdx
            (s.sliceBufferX0 + x') (s.sliceBufferY0 + y) =
            b.cellIdx (s.sliceBufferX0 + x') (s.sliceBufferY0 + y) := rfl
        rw [hcongr]
        simp only [DemBuffer.withData]
        rw [getDSet, if_neg]
        · exact hz x' (List.mem_cons_of_mem x hx')
        · rintro ⟨hEq, -⟩
          exact hidx hEq.symm

theorem sliceRowsFrame {s : TileSlice} {lonGC latGC : GlobalCell} :
    ∀ (ys : List Int) (b b' : DemBuffer),
    b.sliceRows s lonGC latGC ys = .ok b' →
    b.sameGeom b' ∧ b'.blockMove = b.blockMove ∧
    b'.data.length = b.data.length ∧
    ∀ n : Nat,
      (∀ yy ∈ ys, ∀ x ∈ intRange0 s.sliceWidth,
        n ≠ b.cellIdx (s.sliceBufferX0 + x) (s.sliceBufferY0 + yy)) →
      b'.data.getD n 0 = b.data.getD n 0 := by
  intro ys
  induction ys with
  | nil =>
    intro b b' h
    simp only [DemBuffer.sliceRows] at h
    cases h
    exact ⟨sameGeomRefl b, rfl, rfl, fun n _ => rfl⟩
  | cons y rest ih =>
    intro b b' h
    simp only [DemBuffer.sliceRows] at h
    cases hc : b.sliceCols s lonGC latGC y (intRange0 s.sliceWidth) with
    | error e => rw [hc, exceptBindErr] at h; cases h
    | ok b2 =>
      rw [hc, exceptBindOk] at h
      obtain ⟨hg, hbm, hsl, hlen, hframe⟩ := sliceColsFrame _ _ _ hc
      obtain ⟨hg2, hbm2, hlen2, hframe2⟩ := ih _ _ h
      refine ⟨sameGeomTrans hg hg2, hbm2.trans hbm, hlen2.trans hlen, ?_⟩
      intro n hn
      rw [hframe2 n ?rest, hframe n ?head]
      case rest =>
        intro yy hyy x hx
        rw [cellIdxCongr hg.1]
        exact hn yy (List.mem_cons_of_mem y hyy) x hx
      case head =>
        intro x hx
        exact hn y (List.mem_cons_self y rest) x hx

theorem sliceRowsNoOverwrite {s : TileSlice} {lonGC latGC : GlobalCell} :
    ∀ (ys : List Int) (b : DemBuffer),
    ys.Nodup →
    (∀ yy ∈ ys, 0 ≤ s.sliceBufferY0 + yy) →
    0 ≤ s.sliceBufferX0 →
    s.sliceBufferX0 + s.sliceWidth ≤ b.bufferWidth →
    (∀ yy ∈ ys, ∀ x ∈ intRange0 s.sliceWidth,
      b.data.getD (b.cellIdx (s.sliceBufferX0 + x) (s.sliceBufferY0 + yy)) 0
        = 0) →
    b.sliceRows s lonGC latGC ys ≠ .error .overwrite := by
  intro ys
  induction ys with
  | nil =>
    intro b _ _ _ _ _
    simp [DemBuffer.sliceRows]
  | cons y rest ih =>
    intro b hnd hyb hx0 hxW hz
    simp only [DemBuffer.sliceRows]
    have hxmem : ∀ x ∈ intRange0 s.sliceWidth,
        0 ≤ s.sliceBufferX0 + x ∧ s.sliceBufferX0 + x < b.bufferWidth := by
      intro x hx
      have := memIntRange0.mp hx
      omega
    cases hc : b.sliceCols s lonGC latGC y (intRange0 s.sliceWidth) with
    | error e =>
      rw [exceptBindErr]
      have hno := @sliceColsNoOverwrite s lonGC latGC y
        (intRange0 s.sliceWidth) b (nodupIntRange0 _) hxmem
        (hyb y (List.mem_cons_self y rest)) (hz y (List.mem_cons_self y rest))
      rw [hc] at hno
      simpa using hno
    | ok b2 =>
      rw [exceptBindOk]
      obtain ⟨hg, hbm, hsl, hlen, hframe⟩ := sliceColsFrame _ _ _ hc
      refine ih b2 hnd.of_cons ?_ hx0 (by rw [hg.1]; exact hxW) ?_
      · intro yy hyy
        exact hyb yy (List.mem_cons_of_mem y hyy)
      · intro yy hyy x hx
        have hxb := memIntRange0.mp hx
        rw [cellIdxCongr hg.1]
        rw [hframe _ ?notIn]
        · exact hz yy (List.mem_cons_of_mem y hyy) x hx
        case notIn =>
          intro x' hx'
          have hxb' := memIntRange0.mp hx'
          have hyne : y ≠ yy := by
            rintro rfl
            exact (List.nodup_cons.mp hnd).1 hyy
          intro hEq
          unfold DemBuffer.cellIdx at hEq
          have h1 := hxmem x hx
          have h2 := hxmem x' hx'
          have h3 := hyb y (List.mem_cons_self y rest)
          have h4 := hyb yy (List.mem_cons_of_mem y hyy)
          have := idxInj h1.1 h1.2 h2.1 h2.2 h4 h3 hEq
          omega

theorem loadTileSliceFrame {b : DemBuffer} {s : TileSlice} {b' : DemBuffer}
    (h : b.loadTileSlice s = .ok b') :
    b.sameGeom b' ∧ b'.blockMove = b.blockMove ∧
    b'.data.length = b.data.length ∧
    ∀ n : Nat,
      (∀ yy ∈ intRange0 s.sliceHeight, ∀ x ∈ intRange0 s.sliceWidth,
        n ≠ b.cellIdx (s.sliceBufferX0 + x) (s.sliceBufferY0 + yy)) →
      b'.data.getD n 0 = b.data.getD n 0 := by
  simp only [DemBuffer.loadTileSlice] at h
  cases h1 : mkDeg s.tileKey.lon 1 with
  | error e => rw [h1, exceptBindErr] at h; cases h
  | ok lonDeg =>
    rw [h1, exceptBindOk] at h
    cases h2 : mkDeg s.tileKey.lat 1 with
    | error e => rw [h2, exceptBindErr] at h; cases h
    | ok latDeg =>
      rw [h2, exceptBindOk] at h
      cases h3 : b.sliceRows s (GlobalCell.fromDegrees lonDeg b.demTileSize)
          (GlobalCell.fromDegrees latDeg b.demTileSize)
          (intRange0 s.sliceHeight) with
      | error e => rw [h3, exceptBindErr] at h; cases h
      | ok b2 =>
        rw [h3, exceptBindOk] at h
        obtain ⟨hg, hbm, hlen, hframe⟩ := sliceRowsFrame _ _ _ h3
        cases h
        exact ⟨hg, hbm, hlen, hframe⟩

theorem loadTileSliceNoOverwrite {b : DemBuffer} {s : TileSlice}
    (hx0 : 0 ≤ s.sliceBufferX0)
    (hxW : s.sliceBufferX0 + s.sliceWidth ≤ b.bufferWidth)
    (hy0 : 0 ≤ s.sliceBufferY0)
    (hz : ∀ yy ∈ intRange0 s.sliceHeight, ∀ x ∈ intRange0 s.sliceWidth,
      b.data.getD (b.cellIdx (s.sliceBufferX0 + x) (s.sliceBufferY0 + yy)) 0
        = 0) :
    b.loadTileSlice s ≠ .error .overwrite := by
  simp only [DemBuffer.loadTileSlice]
  cases h1 : mkDeg s.tileKey.lon 1 with
  | error e => rw [exceptBindErr, mkDegErr h1]; simp
  | ok lonDeg =>
    rw [exceptBindOk]
    cases h2 : mkDeg s.tileKey.lat 1 with
    | error e => rw [exceptBindErr, mkDegErr h2]; simp
    | ok latDeg =>
      rw [exceptBindOk]
      cases h3 : b.sliceRows s (GlobalCell.fromDegrees lonDeg b.demTileSize)
          (GlobalCell.fromDegrees latDeg b.demTileSize)
          (intRange0 s.sliceHeight) with
      | error e =>
        rw [exceptBindErr]
        have hno := @sliceRowsNoOverwrite s
          (GlobalCell.fromDegrees lonDeg b.demTileSize)
          (GlobalCell.fromDegrees latDeg b.demTileSize)
          (intRange0 s.sliceHeight) b (nodupIntRange0 _)
          (by intro yy hyy; have := memIntRange0.mp hyy; omega)
          hx0 hxW hz
        rw [h3] at hno
        simpa using hno
      | ok b2 =>
        rw [exceptBindOk]
        simp

/-! ### Generic `Except` bind elimination -/

theorem bindOkElim {α β : Type} {e : Except Err α} {f : α → Except Err β}
    {b : β} (h : e >>= f = .ok b) : ∃ a, e = .ok a ∧ f a = .ok b := by
  cases e with
  | error e' => exact absurd h (by simp [exceptBindErr])
  | ok a => exact ⟨a, rfl, h⟩

theorem bindNeError {α β : Type} {e : Except Err α} {f : α → Except Err β}
    {ε : Err} (he : e ≠ .error ε) (hf : ∀ a, e = .ok a → f a ≠ .error ε) :
    e >>= f ≠ .error ε := by
  cases e with
  | error e' =>
    rw [exceptBindErr]
    intro hEq
    exact he (by rw [Except.error.inj hEq])
  | ok a =>
    rw [exceptBindOk]
    exact hf a rfl

theorem neErrorOfShape {α : Type} {x : Except Err α} {good bad : Err}
    (hshape : ∀ e, x = .error e → e = good) (hne : good ≠ bad) :
    x ≠ .error bad := by
  intro h
  exact hne ((hshape bad h).symm)

/-! ### The `update_buffer_area` loop -/

/-- The zero-region invariant of the fill loop: every cell the loop may
still write — the rest of the current band (columns from `x0`, rows
`[y0, y0 + h0)` where `h0` is the current slice height) and all bands below
it — still holds the sentinel. -/
def FillInv (w t : Int) (data : List Int) (areaX areaW areaH : Int)
    (north : GlobalCell) (x0 y0 : Int) : Prop :=
  (∀ cx cy : Int, x0 ≤ cx → cx < areaX + areaW → y0 ≤ cy →
    cy < y0 + min (areaH - y0)
      (t - (north.toLocalCellLat t).value) →
    data.getD (cy * w + cx).toNat 0 = 0) ∧
  (∀ cx cy : Int, areaX ≤ cx → cx < areaX + areaW →
    y0 + min (areaH - y0)
      (t - (north.toLocalCellLat t).value) ≤ cy →
    cy < areaH → data.getD (cy * w + cx).toNat 0 = 0)

theorem updateAreaLoopFields :
    ∀ (fuel : Nat) (b : DemBuffer) (areaX areaY areaW areaH : Int)
      (awc sw north : GlobalCell) (x0 y0 : Int) (b' : DemBuffer),
    b.updateAreaLoop fuel areaX areaY areaW areaH awc sw north x0 y0 = .ok b' →
    b.sameGeom b' ∧ b'.blockMove = b.blockMove ∧
    b'.data.length = b.data.length := by
  intro fuel
  induction fuel with
  | zero =>
    intro b areaX areaY areaW areaH awc sw north x0 y0 b' h
    exact absurd h (by simp [DemBuffer.updateAreaLoop])
  | succ fuel ih =>
    intro b areaX areaY areaW areaH awc sw north x0 y0 b' h
    simp only [DemBuffer.updateAreaLoop] at h
    obtain ⟨d1, h1, h⟩ := bindOkElim h
    obtain ⟨d2, h2, h⟩ := bindOkElim h
    obtain ⟨b2, h3, h⟩ := bindOkElim h
    obtain ⟨hg, hbm, hlen, -⟩ := loadTileSliceFrame h3
    split_ifs at h with c1 c2
    · cases h
      exact ⟨hg, hbm, hlen⟩
    · obtain ⟨hg2, hbm2, hlen2⟩ := ih _ _ _ _ _ _ _ _ _ _ _ h
      exact ⟨sameGeomTrans hg hg2, hbm2.trans hbm, hlen2.trans hlen⟩
    · obtain ⟨hg2, hbm2, hlen2⟩ := ih _ _ _ _ _ _ _ _ _ _ _ h
      exact ⟨sameGeomTrans hg hg2, hbm2.trans hbm, hlen2.trans hlen⟩

/-- Two in-range buffer cells at different coordinates have different flat
indices. -/
theorem notHitHelper {w cx cy tx ty : Int}
    (hcx : 0 ≤ cx) (hcxw : cx < w) (htx : 0 ≤ tx) (htxw : tx < w)
    (hty : 0 ≤ ty) (hcy : 0 ≤ cy) (hne : cx ≠ tx ∨ cy ≠ ty) :
    (cy * w + cx).toNat ≠ (ty * w + tx).toNat := by
  intro hEq
  have := idxInj hcx hcxw htx htxw hcy hty hEq
  omega

theorem updateAreaLoopNoOverwrite :
    ∀ (fuel : Nat) (b : DemBuffer) (w t areaX areaW areaH : Int)
      (awc sw north : GlobalCell) (x0 y0 : Int),
    b.bufferWidth = w → b.demTileSize = t → 0 < t →
    0 ≤ areaX → 0 ≤ areaW → areaX + areaW ≤ w → 0 ≤ areaH →
    areaX ≤ x0 → x0 ≤ areaX + areaW → 0 ≤ y0 → y0 ≤ areaH →
    FillInv w t b.data areaX areaW areaH north x0 y0 →
    b.updateAreaLoop fuel areaX 0 areaW areaH awc sw north x0 y0 ≠
      .error .overwrite := by
  intro fuel
  induction fuel with
  | zero =>
    intro b w t areaX areaW areaH awc sw north x0 y0 _ _ _ _ _ _ _ _ _ _ _ _
    simp [DemBuffer.updateAreaLoop]
  | succ fuel ih =>
    intro b w t areaX areaW areaH awc sw north x0 y0 hW hT ht haX haW haXW
      haH hx0l hx0r hy0l hy0r hInv
    have hlonR := toLocalCellLonRange sw ht
    have hlatR := toLocalCellLatRange north ht
    have hswl : min (areaX + areaW - x0) (t - (sw.toLocalCellLon t).value) ≤
      areaX + areaW - x0 := min_le_left _ _
    have hswr : min (areaX + areaW - x0) (t - (sw.toLocalCellLon t).value) ≤
      t - (sw.toLocalCellLon t).value := min_le_right _ _
    have hsw0 : 0 ≤ min (areaX + areaW - x0)
      (t - (sw.toLocalCellLon t).value) := le_min (by omega) (by omega)
    have hshl : min (areaH - y0) (t - (north.toLocalCellLat t).value) ≤
      areaH - y0 := min_le_left _ _
    have hshr : min (areaH - y0) (t - (north.toLocalCellLat t).value) ≤
      t - (north.toLocalCellLat t).value := min_le_right _ _
    have hsh0 : 0 ≤ min (areaH - y0)
      (t - (north.toLocalCellLat t).value) := le_min (by omega) (by omega)
    simp only [DemBuffer.updateAreaLoop, zero_add]
    rw [hT]
    refine bindNeError
      (neErrorOfShape (fun e hx => toTileDegreesErr hx) (by simp)) ?_
    intro d1 h1
    refine bindNeError
      (neErrorOfShape (fun e hx => toTileDegreesErr hx) (by simp)) ?_
    intro d2 h2
    refine bindNeError ?hload ?hrest
    case hload =>
      apply loadTileSliceNoOverwrite
      · exact (by omega : (0:Int) ≤ x0)
      · show x0 + min (areaX + areaW - x0) (t - (sw.toLocalCellLon t).value) ≤
          b.bufferWidth
        omega
      · exact (by omega : (0:Int) ≤ y0)
      · intro yy hyy x hx
        have hyb : 0 ≤ yy ∧
            yy < min (areaH - y0) (t - (north.toLocalCellLat t).value) :=
          memIntRange0.mp hyy
        have hxb : 0 ≤ x ∧
            x < min (areaX + areaW - x0) (t - (sw.toLocalCellLon t).value) :=
          memIntRange0.mp hx
        show b.data.getD (b.cellIdx (x0 + x) (y0 + yy)) 0 = 0
        unfold DemBuffer.cellIdx
        rw [hW]
        exact hInv.1 (x0 + x) (y0 + yy) (by omega) (by omega) (by omega)
          (by omega)
    case hrest =>
      intro b2 h3
      obtain ⟨hg, hbm, hlen, hframe⟩ := loadTileSliceFrame h3
      have hW2 : b2.bufferWidth = w := hg.1.trans hW
      have hT2 : b2.demTileSize = t := (hg.2.2.1).trans hT
      have hframe2 : ∀ cx cy : Int, 0 ≤ cx → cx < w → 0 ≤ cy →
          (cx < x0 ∨ x0 + min (areaX + areaW - x0)
            (t - (sw.toLocalCellLon t).value) ≤ cx ∨
           cy < y0 ∨ y0 + min (areaH - y0)
            (t - (north.toLocalCellLat t).value) ≤ cy) →
          b2.data.getD (cy * w + cx).toNat 0 =
            b.data.getD (cy * w + cx).toNat 0 := by
        intro cx cy hcx hcxw hcy hor
        have hres := hframe (cy * w + cx).toNat ?side
        · exact hres
        case side =>
          intro yy hyy x hx
          have hyb : 0 ≤ yy ∧
              yy < min (areaH - y0) (t - (north.toLocalCellLat t).value) :=
            memIntRange0.mp hyy
          have hxb : 0 ≤ x ∧
              x < min (areaX + areaW - x0) (t - (sw.toLocalCellLon t).value) :=
            memIntRange0.mp hx
          show (cy * w + cx).toNat ≠ b.cellIdx (x0 + x) (y0 + yy)
          unfold DemBuffer.cellIdx
          rw [hW]
          exact notHitHelper hcx hcxw (by omega) (by omega) (by omega) hcy
            (by omega)
      split_ifs with c1 c2
      · simp
      · -- carriage return: move to the next band
        apply ih b2 w t areaX areaW areaH awc awc
          ⟨north.value - min (areaH - y0) (t - (north.toLocalCellLat t).value)⟩
          areaX (y0 + min (areaH - y0) (t - (north.toLocalCellLat t).value))
          hW2 hT2 ht haX haW haXW haH (by omega) (by omega) (by omega)
          (by omega)
        have hlat2 := toLocalCellLatRange
          (⟨north.value - min (areaH - y0)
            (t - (north.toLocalCellLat t).value)⟩ : GlobalCell) ht
        constructor
        · intro cx cy hcx1 hcx2 hcy1 hcy2
          have hm2 := min_le_left (areaH -
            (y0 + min (areaH - y0) (t - (north.toLocalCellLat t).value)))
            (t - ((⟨north.value - min (areaH - y0)
              (t - (north.toLocalCellLat t).value)⟩ :
                GlobalCell).toLocalCellLat t).value)
          rw [hframe2 cx cy (by omega) (by omega) (by omega) (by omega)]
          exact hInv.2 cx cy hcx1 hcx2 (by omega) (by omega)
        · intro cx cy hcx1 hcx2 hcy1 hcy2
          rw [hframe2 cx cy (by omega) (by omega) (by omega) (by omega)]
          exact hInv.2 cx cy hcx1 hcx2 (by omega) (by omega)
      · -- continue within the band
        apply ih b2 w t areaX areaW areaH awc
          ⟨sw.value + min (areaX + areaW - x0)
            (t - (sw.toLocalCellLon t).value)⟩ north
          (x0 + min (areaX + areaW - x0) (t - (sw.toLocalCellLon t).value)) y0
          hW2 hT2 ht haX haW haXW haH (by omega) (by omega) (by omega) hy0r
        constructor
        · intro cx cy hcx1 hcx2 hcy1 hcy2
          rw [hframe2 cx cy (by omega) (by omega) (by omega) (by omega)]
          exact hInv.1 cx cy (by omega) hcx2 hcy1 (by omega)
        · intro cx cy hcx1 hcx2 hcy1 hcy2
          rw [hframe2 cx cy (by omega) (by omega) (by omega) (by omega)]
          exact hInv.2 cx cy hcx1 hcx2 (by omega) hcy2

/-! ### The `move_dem_block` loops -/

theorem copyCellErr {b : DemBuffer} {acc : List Int} {y x : Int} {e : Err}
    (h : b.copyCell acc y x = .error e) : e = .indexOOB := by
  simp only [DemBuffer.copyCell] at h
  cases hg : b.getCell x y with
  | error e' =>
    rw [hg, exceptBindErr] at h
    rw [← Except.error.inj h]
    exact getCellErr hg
  | ok c =>
    rw [hg, exceptBindOk] at h
    split_ifs at h
    exact (Except.error.inj h).symm

theorem copyColsErr {b : DemBuffer} {y : Int} :
    ∀ (xs : List Int) (acc : List Int) (e : Err),
    b.copyCols acc y xs = .error e → e = .indexOOB := by
  intro xs
  induction xs with
  | nil =>
    intro acc e h
    exact absurd h (by simp [DemBuffer.copyCols])
  | cons x rest ih =>
    intro acc e h
    simp only [DemBuffer.copyCols] at h
    cases hc : b.copyCell acc y x with
    | error e' =>
      rw [hc, exceptBindErr] at h
      rw [← Except.error.inj h]
      exact copyCellErr hc
    | ok acc2 =>
      rw [hc, exceptBindOk] at h
      exact ih acc2 e h

theorem copyRowsErr {b : DemBuffer} :
    ∀ (ys : List Int) (acc : List Int) (e : Err),
    b.copyRows acc ys = .error e → e = .indexOOB := by
  intro ys
  induction ys with
  | nil =>
    intro acc e h
    exact absurd h (by simp [DemBuffer.copyRows])
  | cons y rest ih =>
    intro acc e h
    simp only [DemBuffer.copyRows] at h
    cases hc : b.copyCols acc y (intRange0 b.bufferWidth) with
    | error e' =>
      rw [hc, exceptBindErr] at h
      rw [← Except.error.inj h]
      exact copyColsErr _ _ _ hc
    | ok acc2 =>
      rw [hc, exceptBindOk] at h
      exact ih acc2 e h

theorem copyAllErr {b : DemBuffer} {e : Err} (h : b.copyAll = .error e) :
    e = .indexOOB := by
  unfold DemBuffer.copyAll at h
  exact copyRowsErr _ _ _ h

theorem moveCellOk {b : DemBuffer} {dataCopy : List Int}
    {sourceX0 sourceY0 destX0 destY0 y x : Int} {b' : DemBuffer}
    (h : b.moveCell dataCopy sourceX0 sourceY0 destX0 destY0 y x = .ok b') :
    ∃ v, b' = b.withData
      (b.data.set (b.cellIdx (destX0 + x) (destY0 + y)) v) := by
  simp only [DemBuffer.moveCell] at h
  split_ifs at h
  exact ⟨_, (setCellOk h).1⟩

theorem moveCellNoOverwrite {b : DemBuffer} {dataCopy : List Int}
    {sourceX0 sourceY0 destX0 destY0 y x : Int}
    (hz : b.data.getD (b.cellIdx (destX0 + x) (destY0 + y)) 0 = 0) :
    b.moveCell dataCopy sourceX0 sourceY0 destX0 destY0 y x ≠
      .error .overwrite := by
  simp only [DemBuffer.moveCell]
  split_ifs with h1
  · exact setCellNoOverwrite hz
  · simp

theorem moveColsFrame {dataCopy : List Int}
    {sourceX0 sourceY0 destX0 destY0 y : Int} :
    ∀ (xs : List Int) (b b' : DemBuffer),
    b.moveCols dataCopy sourceX0 sourceY0 destX0 destY0 y xs = .ok b' →
    b.sameGeom b' ∧ b'.blockMove = b.blockMove ∧
    b'.slicesLoaded = b.slicesLoaded ∧
    ∀ n : Nat, (∀ x ∈ xs, n ≠ b.cellIdx (destX0 + x) (destY0 + y)) →
      b'.data.getD n 0 = b.data.getD n 0 := by
  intro xs
  induction xs with
  | nil =>
    intro b b' h
    simp only [DemBuffer.moveCols] at h
    cases h
    exact ⟨sameGeomRefl b, rfl, rfl, fun n _ => rfl⟩
  | cons x rest ih =>
    intro b b' h
    simp only [DemBuffer.moveCols] at h
    cases hc : b.moveCell dataCopy sourceX0 sourceY0 destX0 destY0 y x with
    | error e => rw [hc, exceptBindErr] at h; cases h
    | ok b2 =>
      rw [hc, exceptBindOk] at h
      obtain ⟨v, rfl⟩ := moveCellOk hc
      obtain ⟨hg, hbm, hsl, hframe⟩ := ih _ _ h
      refine ⟨sameGeomTrans (withDataGeom b _) hg, hbm.trans rfl, hsl.trans rfl,
        ?_⟩
      intro n hn
      rw [hframe n (fun x' hx' => hn x' (List.mem_cons_of_mem x hx'))]
      simp only [DemBuffer.withData]
      rw [getDSet, if_neg]
      rintro ⟨hEq, -⟩
      exact hn x (List.mem_cons_self x rest) hEq.symm

theorem moveColsNoOverwrite {dataCopy : List Int}
    {sourceX0 sourceY0 destX0 destY0 y : Int} :
    ∀ (xs : List Int) (b : DemBuffer),
    xs.Nodup →
    (∀ x ∈ xs, 0 ≤ destX0 + x ∧ destX0 + x < b.bufferWidth) →
    0 ≤ destY0 + y →
    (∀ x ∈ xs, b.data.getD (b.cellIdx (destX0 + x) (destY0 + y)) 0 = 0) →
    b.moveCols dataCopy sourceX0 sourceY0 destX0 destY0 y xs ≠
      .error .overwrite := by
  intro xs
  induction xs with
  | nil =>
    intro b _ _ _ _
    simp [DemBuffer.moveCols]
  | cons x rest ih =>
    intro b hnd hx hy hz
    simp only [DemBuffer.moveCols]
    cases hc : b.moveCell dataCopy sourceX0 sourceY0 destX0 destY0 y x with
    | error e =>
      rw [exceptBindErr]
      have hno := @moveCellNoOverwrite b dataCopy sourceX0 sourceY0
        destX0 destY0 y x (hz x (List.mem_cons_self x rest))
      rw [hc] at hno
      simpa using hno
    | ok b2 =>
      rw [exceptBindOk]
      obtain ⟨v, rfl⟩ := moveCellOk hc
      refine ih _ hnd.of_cons
        (fun x' hx' => hx x' (List.mem_cons_of_mem x hx')) hy ?_
      intro x' hx'
      have hxne : x ≠ x' := by
        rintro rfl
        exact (List.nodup_cons.mp hnd).1 hx'
      have h1 := hx x (List.mem_cons_self x rest)
      have h2 := hx x' (List.mem_cons_of_mem x hx')
      show (b.withData _).data.getD (b.cellIdx (destX0 + x') (destY0 + y)) 0
        = 0
      simp only [DemBuffer.withData]
      rw [getDSet, if_neg]
      · exact hz x' (List.mem_cons_of_mem x hx')
      · rintro ⟨hEq, -⟩
        unfold DemBuffer.cellIdx at hEq
        exact notHitHelper h1.1 h1.2 h2.1 h2.2 hy hy (by omega) hEq

theorem moveRowsFrame {dataCopy : List Int}
    {sourceX0 sourceY0 blockWidth destX0 destY0 : Int} :
    ∀ (ys : List Int) (b b' : DemBuffer),
    b.moveRows dataCopy sourceX0 sourceY0 blockWidth destX0 destY0 ys
      = .ok b' →
    b.sameGeom b' ∧ b'.blockMove = b.blockMove ∧
    b'.slicesLoaded = b.slicesLoaded ∧
    ∀ n : Nat,
      (∀ yy ∈ ys, ∀ x ∈ intRange0 blockWidth,
        n ≠ b.cellIdx (destX0 + x) (destY0 + yy)) →
      b'.data.getD n 0 = b.data.getD n 0 := by
  intro ys
  induction ys with
  | nil =>
    intro b b' h
    simp only [DemBuffer.moveRows] at h
    cases h
    exact ⟨sameGeomRefl b, rfl, rfl, fun n _ => rfl⟩
  | cons y rest ih =>
    intro b b' h
    simp only [DemBuffer.moveRows] at h
    cases hc : b.moveCols dataCopy sourceX0 sourceY0 destX0 destY0 y
        (intRange0 blockWidth) with
    | error e => rw [hc, exceptBindErr] at h; cases h
    | ok b2 =>
      rw [hc, exceptBindOk] at h
      obtain ⟨hg, hbm, hsl, hframe⟩ := moveColsFrame _ _ _ hc
      obtain ⟨hg2, hbm2, hsl2, hframe2⟩ := ih _ _ h
      refine ⟨sameGeomTrans hg hg2, hbm2.trans hbm, hsl2.trans hsl, ?_⟩
      intro n hn
      rw [hframe2 n ?rest, hframe n ?head]
      case rest =>
        intro yy hyy x hx
        rw [cellIdxCongr hg.1]
        exact hn yy (List.mem_cons_of_mem y hyy) x hx
      case head =>
        intro x hx
        exact hn y (List.mem_cons_self y rest) x hx

theorem moveRowsNoOverwrite {dataCopy : List Int}
    {sourceX0 sourceY0 blockWidth destX0 destY0 : Int} :
    ∀ (ys : List Int) (b : DemBuffer),
    ys.Nodup →
    (∀ yy ∈ ys, 0 ≤ destY0 + yy) →
    0 ≤ destX0 →
    destX0 + blockWidth ≤ b.bufferWidth →
    (∀ yy ∈ ys, ∀ x ∈ intRange0 blockWidth,
      b.data.getD (b.cellIdx (destX0 + x) (destY0 + yy)) 0 = 0) →
    b.moveRows dataCopy sourceX0 sourceY0 blockWidth destX0 destY0 ys ≠
      .error .overwrite := by
  intro ys
  induction ys with
  | nil =>
    intro b _ _ _ _ _
    simp [DemBuffer.moveRows]
  | cons y rest ih =>
    intro b hnd hyb hx0 hxW hz
    simp only [DemBuffer.moveRows]
    have hxmem : ∀ x ∈ intRange0 blockWidth,
        0 ≤ destX0 + x ∧ destX0 + x < b.bufferWidth := by
      intro x hx
      have := memIntRange0.mp hx
      omega
    cases hc : b.moveCols dataCopy sourceX0 sourceY0 destX0 destY0 y
        (intRange0 blockWidth) with
    | error e =>
      rw [exceptBindErr]
      have hno := @moveColsNoOverwrite dataCopy sourceX0 sourceY0
        destX0 destY0 y (intRange0 blockWidth) b (nodupIntRange0 _) hxmem
        (hyb y (List.mem_cons_self y rest)) (hz y (List.mem_cons_self y rest))
      rw [hc] at hno
      simpa using hno
    | ok b2 =>
      rw [exceptBindOk]
      obtain ⟨hg, hbm, hsl, hframe⟩ := moveColsFrame _ _ _ hc
      refine ih b2 hnd.of_cons
        (fun yy hyy => hyb yy (List.mem_cons_of_mem y hyy)) hx0
        (by rw [hg.1]; exact hxW) ?_
      intro yy hyy x hx
      have hxb := memIntRange0.mp hx
      rw [cellIdxCongr hg.1]
      rw [hframe _ ?notIn]
      · exact hz yy (List.mem_cons_of_mem y hyy) x hx
      case notIn =>
        intro x' hx'
        have hyne : y ≠ yy := by
          rintro rfl
          exact (List.nodup_cons.mp hnd).1 hyy
        have h1 := hxmem x hx
        have h2 := hxmem x' hx'
        have h3 := hyb y (List.mem_cons_self y rest)
        have h4 := hyb yy (List.mem_cons_of_mem y hyy)
        unfold DemBuffer.cellIdx
        exact notHitHelper h1.1 h1.2 h2.1 h2.2 h3 h4 (by omega)

theorem moveDemBlockContract {b : DemBuffer}
    {sourceX0 sourceY0 blockWidth blockHeight destX0 destY0 : Int}
    (hdx0 : 0 ≤ destX0) (hdxW : destX0 + blockWidth ≤ b.bufferWidth)
    (hdy0 : 0 ≤ destY0) :
    (b.moveDemBlock sourceX0 sourceY0 blockWidth blockHeight destX0 destY0 ≠
      .error .overwrite) ∧
    ∀ b', b.moveDemBlock sourceX0 sourceY0 blockWidth blockHeight destX0
        destY0 = .ok b' →
      b.sameGeom b' ∧
      b'.blockMove = some ⟨sourceX0, sourceY0, blockWidth, blockHeight,
        destX0, destY0⟩ ∧
      ∀ cx cy : Int, 0 ≤ cx → cx < b.bufferWidth → 0 ≤ cy →
        (cx < destX0 ∨ destX0 + blockWidth ≤ cx ∨ cy < destY0 ∨
          destY0 + blockHeight ≤ cy) →
        b'.data.getD (cy * b.bufferWidth + cx).toNat 0 = 0 := by
  constructor
  · simp only [DemBuffer.moveDemBlock]
    refine bindNeError
      (neErrorOfShape (fun e hx => copyAllErr hx) (by simp)) ?_
    intro dataCopy hcopy
    refine bindNeError ?hmove ?hok
    case hmove =>
      apply moveRowsNoOverwrite
      · exact nodupIntRange0 _
      · intro yy hyy
        have := memIntRange0.mp hyy
        omega
      · exact hdx0
      · show destX0 + blockWidth ≤ b.clearData.bufferWidth
        exact hdxW
      · intro yy hyy x hx
        show b.clearData.data.getD _ 0 = 0
        simp only [DemBuffer.clearData]
        exact getDMapZero _ _
    case hok =>
      intro b3 h3
      simp
  · intro b' h
    simp only [DemBuffer.moveDemBlock] at h
    obtain ⟨dataCopy, hcopy, h⟩ := bindOkElim h
    obtain ⟨b3, h3, h⟩ := bindOkElim h
    obtain ⟨hg, hbm, hsl, hframe⟩ := moveRowsFrame _ _ _ h3
    cases h
    refine ⟨sameGeomTrans (sameGeomRefl b) hg, rfl, ?_⟩
    intro cx cy hcx hcxw hcy hout
    have hres := hframe (cy * b.bufferWidth + cx).toNat ?notTarget
    · show b3.data.getD (cy * b.bufferWidth + cx).toNat 0 = 0
      rw [hres]
      show b.clearData.data.getD _ 0 = 0
      simp only [DemBuffer.clearData]
      exact getDMapZero _ _
    case notTarget =>
      intro yy hyy x hx
      have hyb := memIntRange0.mp hyy
      have hxb := memIntRange0.mp hx
      show (cy * b.bufferWidth + cx).toNat ≠ b.clearData.cellIdx (destX0 + x)
        (destY0 + yy)
      unfold DemBuffer.cellIdx
      show (cy * b.bufferWidth + cx).toNat ≠
        ((destY0 + yy) * b.bufferWidth + (destX0 + x)).toNat
      exact notHitHelper hcx hcxw (by omega) (by omega) (by omega) hcy
        (by omega)

/-! ### `fill_missing_data_after_move` -/

theorem fillMissingFields {fuel : Nat} {b b' : DemBuffer}
    (h : b.fillMissingDataAfterMove fuel = .ok b') :
    b.sameGeom b' ∧ b'.blockMove = b.blockMove := by
  cases hbm : b.blockMove with
  | none => simp only [DemBuffer.fillMissingDataAfterMove, hbm] at h; cases h
  | some bm =>
    simp only [DemBuffer.fillMissingDataAfterMove, hbm] at h
    split_ifs at h <;>
    · simp only [DemBuffer.updateBufferArea] at h
      obtain ⟨hg, hb, -⟩ := updateAreaLoopFields _ _ _ _ _ _ _ _ _ _ _ _ h
      exact ⟨hg, hb.trans hbm⟩

theorem fillMissingNoOverwrite {fuel : Nat} {b : DemBuffer} {bm : BlockMove}
    (hbm : b.blockMove = some bm)
    (ht : 0 < b.demTileSize) (hH : 0 ≤ b.bufferHeight)
    (hbw0 : 0 ≤ bm.blockWidth)
    (hbwW : bm.destX0 + bm.blockWidth ≤ b.bufferWidth)
    (hdx0 : 0 ≤ bm.destX0)
    (hzero : ∀ cx cy : Int, 0 ≤ cx → cx < b.bufferWidth → 0 ≤ cy →
      (cx < bm.destX0 ∨ bm.destX0 + bm.blockWidth ≤ cx ∨ cy < bm.destY0 ∨
        bm.destY0 + bm.blockHeight ≤ cy) →
      b.data.getD (cy * b.bufferWidth + cx).toNat 0 = 0) :
    b.fillMissingDataAfterMove fuel ≠ .error .overwrite := by
  simp only [DemBuffer.fillMissingDataAfterMove, hbm]
  split_ifs with hd
  · simp only [DemBuffer.updateBufferArea]
    apply updateAreaLoopNoOverwrite fuel _ b.bufferWidth b.demTileSize
      bm.blockWidth (b.bufferWidth - bm.blockWidth) b.bufferHeight _ _ _ _ _
      rfl rfl ht (by omega) (by omega) (by omega) hH (by omega) (by omega)
      (by omega) (by omega)
    constructor
    · intro cx cy hcx1 hcx2 hcy1 hcy2
      exact hzero cx cy (by omega) (by omega) (by omega) (by omega)
    · intro cx cy hcx1 hcx2 hcy1 hcy2
      have hlatR := toLocalCellLatRange b.bufferNorthEdge ht
      have hmin0 : 0 ≤ min (b.bufferHeight - 0)
          (b.demTileSize -
            (b.bufferNorthEdge.toLocalCellLat b.demTileSize).value) :=
        le_min (by omega) (by omega)
      exact hzero cx cy (by omega) (by omega) (by omega) (by omega)
  · simp only [DemBuffer.updateBufferArea]
    apply updateAreaLoopNoOverwrite fuel _ b.bufferWidth b.demTileSize
      0 bm.destX0 b.bufferHeight _ _ _ _ _
      rfl rfl ht (by omega) (by omega) (by omega) hH (by omega) (by omega)
      (by omega) (by omega)
    constructor
    · intro cx cy hcx1 hcx2 hcy1 hcy2
      exact hzero cx cy (by omega) (by omega) (by omega) (by omega)
    · intro cx cy hcx1 hcx2 hcy1 hcy2
      have hlatR := toLocalCellLatRange b.bufferNorthEdge ht
      have hmin0 : 0 ≤ min (b.bufferHeight - 0)
          (b.demTileSize -
            (b.bufferNorthEdge.toLocalCellLat b.demTileSize).value) :=
        le_min (by omega) (by omega)
      exact hzero cx cy (by omega) (by omega) (by omega) (by omega)

/-! ### `try_partial_update` -/

theorem tpuCharacterization {fuel : Nat} {b : DemBuffer} {lon lat : Deg}
    {newWest newNorth blockWidth blockHeight : Int}
    (hnw : newWest = (GlobalCell.fromDegrees lon b.demTileSize).value -
      b.bufferWidth.tdiv 2)
    (hnn : newNorth = (GlobalCell.fromDegrees lat b.demTileSize).value +
      b.bufferHeight.tdiv 2)
    (hbw : blockWidth = min b.bufferEastEdge.value (newWest + b.bufferWidth) -
      max b.bufferWestEdge.value newWest)
    (hbh : blockHeight = min b.bufferNorthEdge.value newNorth -
      max b.bufferSouthEdge.value (newNorth - b.bufferHeight)) :
    ((blockWidth < 0 ∨ blockHeight < 0) →
      b.tryPartUpdate fuel lon lat = .ok (.entireBufferReloadRequired, b)) ∧
    (∀ d b', b.tryPartUpdate fuel lon lat = .ok (d, b') →
      (d = .entireBufferReloadRequired →
        b' = b ∧ (blockWidth < 0 ∨ blockHeight < 0)) ∧
      (d = .partUpdatePerformed →
        0 ≤ blockWidth ∧ 0 ≤ blockHeight ∧
        b'.bufferWidth = b.bufferWidth ∧ b'.bufferHeight = b.bufferHeight ∧
        b'.demTileSize = b.demTileSize ∧
        b'.minCellDistanceToEdgeBeforeRefresh =
          b.minCellDistanceToEdgeBeforeRefresh ∧
        b'.state = b.state ∧
        b'.centerGlobalCellLon = GlobalCell.fromDegrees lon b.demTileSize ∧
        b'.centerGlobalCellLat = GlobalCell.fromDegrees lat b.demTileSize ∧
        b'.bufferWestEdge = ⟨newWest⟩ ∧
        b'.bufferEastEdge = ⟨newWest + b.bufferWidth⟩ ∧
        b'.bufferNorthEdge = ⟨newNorth⟩ ∧
        b'.bufferSouthEdge = ⟨newNorth - b.bufferHeight⟩ ∧
        b'.blockMove = some
          ⟨max b.bufferWestEdge.value newWest - b.bufferWestEdge.value,
            b.bufferNorthEdge.value - min b.bufferNorthEdge.value newNorth,
            blockWidth, blockHeight,
            max b.bufferWestEdge.value newWest - newWest,
            newNorth - min b.bufferNorthEdge.value newNorth⟩)) := by
  constructor
  · intro hneg
    simp only [DemBuffer.tryPartUpdate]
    rw [← hnw, ← hnn]
    split_ifs with hc
    · exfalso
      rw [hbw, hbh] at hneg
      omega
    · rfl
  · intro d b' h
    simp only [DemBuffer.tryPartUpdate] at h
    rw [← hnw, ← hnn] at h
    split_ifs at h with hc
    · obtain ⟨b2, hmove, h⟩ := bindOkElim h
      obtain ⟨b4, hfill, h⟩ := bindOkElim h
      injection h with h2
      injection h2 with hd hb
      subst hd
      subst hb
      refine ⟨(fun hd => nomatch hd), fun _ => ?_⟩
      have hr1 := le_max_right b.bufferWestEdge.value newWest
      have hr2 := min_le_right b.bufferEastEdge.value (newWest + b.bufferWidth)
      have hr3 := min_le_right b.bufferNorthEdge.value newNorth
      have hdx0 : 0 ≤ max b.bufferWestEdge.value newWest - newWest := by omega
      have hdxW : (max b.bufferWestEdge.value newWest - newWest) +
          (min b.bufferEastEdge.value (newWest + b.bufferWidth) -
            max b.bufferWestEdge.value newWest) ≤ b.bufferWidth := by omega
      have hdy0 : 0 ≤ newNorth - min b.bufferNorthEdge.value newNorth := by
        omega
      obtain ⟨hg2, hbm2, -⟩ := (moveDemBlockContract hdx0 hdxW hdy0).2 b2 hmove
      obtain ⟨hg3, hbm3⟩ := fillMissingFields hfill
      unfold DemBuffer.sameGeom at hg2 hg3
      obtain ⟨g1, g2, g3, g4, g5, g6, g7, g8, g9, g10, g11⟩ := hg2
      obtain ⟨f1, f2, f3, f4, f5, f6, f7, f8, f9, f10, f11⟩ := hg3
      refine ⟨by rw [hbw]; exact hc.1, by rw [hbh]; exact hc.2,
        f1.trans g1, f2.trans g2, f3.trans g3, f4.trans g4, f5.trans g5,
        ?_, ?_, f8, f9, f10, f11, ?_⟩
      · exact f6.trans (by rw [g3])
      · exact f7.trans (by rw [g3])
      · rw [hbw, hbh]
        exact hbm3.trans hbm2
    · injection h with h2
      injection h2 with hd hb
      subst hd
      subst hb
      refine ⟨(fun _ => ⟨rfl, ?_⟩), fun hd => nomatch hd⟩
      rw [hbw, hbh]
      omega

theorem tpuNoOverwrite {fuel : Nat} {b : DemBuffer} {lon lat : Deg}
    {newWest newNorth : Int}
    (hnw : newWest = (GlobalCell.fromDegrees lon b.demTileSize).value -
      b.bufferWidth.tdiv 2)
    (hnn : newNorth = (GlobalCell.fromDegrees lat b.demTileSize).value +
      b.bufferHeight.tdiv 2)
    (ht : 0 < b.demTileSize) (hH : 0 ≤ b.bufferHeight) :
    b.tryPartUpdate fuel lon lat ≠ .error .overwrite := by
  simp only [DemBuffer.tryPartUpdate]
  rw [← hnw, ← hnn]
  split_ifs with hc
  · have hr1 := le_max_right b.bufferWestEdge.value newWest
    have hr2 := min_le_right b.bufferEastEdge.value (newWest + b.bufferWidth)
    have hr3 := min_le_right b.bufferNorthEdge.value newNorth
    have hdx0 : 0 ≤ max b.bufferWestEdge.value newWest - newWest := by omega
    have hdxW : (max b.bufferWestEdge.value newWest - newWest) +
        (min b.bufferEastEdge.value (newWest + b.bufferWidth) -
          max b.bufferWestEdge.value newWest) ≤ b.bufferWidth := by omega
    have hdy0 : 0 ≤ newNorth - min b.bufferNorthEdge.value newNorth := by
      omega
    refine bindNeError (moveDemBlockContract hdx0 hdxW hdy0).1 ?_
    intro b2 hmove
    obtain ⟨hg2, hbm2, hzero2⟩ := (moveDemBlockContract hdx0 hdxW hdy0).2
      b2 hmove
    unfold DemBuffer.sameGeom at hg2
    obtain ⟨g1, g2, g3, g4, g5, g6, g7, g8, g9, g10, g11⟩ := hg2
    refine bindNeError ?_ ?_
    · refine fillMissingNoOverwrite hbm2 ?_ ?_ ?_ ?_ ?_ ?_
      · show 0 < b2.demTileSize
        rw [g3]
        exact ht
      · show 0 ≤ b2.bufferHeight
        rw [g2]
        exact hH
      · show 0 ≤ min b.bufferEastEdge.value (newWest + b.bufferWidth) -
          max b.bufferWestEdge.value newWest
        exact hc.1
      · show max b.bufferWestEdge.value newWest - newWest +
          (min b.bufferEastEdge.value (newWest + b.bufferWidth) -
            max b.bufferWestEdge.value newWest) ≤ b2.bufferWidth
        rw [g1]
        exact hdxW
      · show 0 ≤ max b.bufferWestEdge.value newWest - newWest
        exact hdx0
      · intro cx cy hcx hcxw hcy hout
        have hcxw' : cx < b2.bufferWidth := hcxw
        rw [g1] at hcxw'
        show b2.data.getD (cy * b2.bufferWidth + cx).toNat 0 = 0
        rw [g1]
        exact hzero2 cx cy hcx hcxw' hcy hout
    · intro b4 _
      simp
  · simp

/-! ### `reload_entire_buffer` -/

theorem reloadNoOverwrite {fuel : Nat} {b : DemBuffer} {lon lat : Deg}
    (ht : 0 < b.demTileSize) (hW : 0 ≤ b.bufferWidth)
    (hH : 0 ≤ b.bufferHeight) :
    b.reloadEntireBuffer fuel lon lat ≠ .error .overwrite := by
  simp only [DemBuffer.reloadEntireBuffer, DemBuffer.clearData]
  refine bindNeError ?_ ?_
  · simp only [DemBuffer.updateBufferArea]
    refine updateAreaLoopNoOverwrite fuel _ b.bufferWidth b.demTileSize
      _ _ _ _ _ _ _ _ rfl rfl ht le_rfl ?_ ?_ ?_ le_rfl ?_ le_rfl ?_ ?_
    · exact hW
    · show (0 : Int) + b.bufferWidth ≤ b.bufferWidth
      omega
    · exact hH
    · show (0 : Int) ≤ 0 + b.bufferWidth
      omega
    · exact hH
    · constructor
      · intro cx cy _ _ _ _
        exact getDMapZero _ _
      · intro cx cy _ _ _ _
        exact getDMapZero _ _
  · intro b2 _
    simp

theorem reloadOkFields {fuel : Nat} {b : DemBuffer} {lon lat : Deg}
    {b' : DemBuffer} (h : b.reloadEntireBuffer fuel lon lat = .ok b') :
    b'.bufferWidth = b.bufferWidth ∧ b'.bufferHeight = b.bufferHeight ∧
    b'.demTileSize = b.demTileSize ∧
    b'.minCellDistanceToEdgeBeforeRefresh =
      b.minCellDistanceToEdgeBeforeRefresh ∧
    b'.state = .inited ∧
    b'.centerGlobalCellLon = GlobalCell.fromDegrees lon b.demTileSize ∧
    b'.centerGlobalCellLat = GlobalCell.fromDegrees lat b.demTileSize ∧
    b'.bufferWestEdge = ⟨(GlobalCell.fromDegrees lon b.demTileSize).value -
      b.bufferWidth.tdiv 2⟩ ∧
    b'.bufferEastEdge = ⟨(GlobalCell.fromDegrees lon b.demTileSize).value -
      b.bufferWidth.tdiv 2 + b.bufferWidth⟩ ∧
    b'.bufferNorthEdge = ⟨(GlobalCell.fromDegrees lat b.demTileSize).value +
      b.bufferHeight.tdiv 2⟩ ∧
    b'.bufferSouthEdge = ⟨(GlobalCell.fromDegrees lat b.demTileSize).value +
      b.bufferHeight.tdiv 2 - b.bufferHeight⟩ := by
  simp only [DemBuffer.reloadEntireBuffer, DemBuffer.clearData] at h
  obtain ⟨b2, hloop, h⟩ := bindOkElim h
  injection h with h2
  subst h2
  simp only [DemBuffer.updateBufferArea] at hloop
  obtain ⟨hg, -, -⟩ := updateAreaLoopFields _ _ _ _ _ _ _ _ _ _ _ _ hloop
  unfold DemBuffer.sameGeom at hg
  obtain ⟨g1, g2, g3, g4, g5, g6, g7, g8, g9, g10, g11⟩ := hg
  exact ⟨g1, g2, g3, g4, rfl, g6, g7, g8, g9, g10, g11⟩

/-! ### `update_map_position` -/

theorem updateNoOverwrite {fuel : Nat} {b : DemBuffer} {lon lat : Deg}
    {vw vh : Int} (ht : 0 < b.demTileSize) (hW : 0 ≤ b.bufferWidth)
    (hH : 0 ≤ b.bufferHeight) :
    b.updateMapPosition fuel lon lat vw vh ≠ .error .overwrite := by
  simp only [DemBuffer.updateMapPosition, DemBuffer.clearUpdateLog]
  split_ifs with h1 h2
  · exact reloadNoOverwrite ht hW hH
  · refine bindNeError (tpuNoOverwrite rfl rfl ht hH) ?_
    intro r hr
    split_ifs with h3
    · obtain ⟨hent, -⟩ := (tpuCharacterization rfl rfl rfl rfl).2 r.1 r.2 hr
      obtain ⟨hb2, -⟩ := hent h3
      rw [hb2]
      exact reloadNoOverwrite ht hW hH
    · simp
  · simp

theorem updateOkCases {fuel : Nat} {b : DemBuffer} {lon lat : Deg}
    {vw vh : Int} {b' : DemBuffer}
    (h : b.updateMapPosition fuel lon lat vw vh = .ok b') :
    b'.bufferWidth = b.bufferWidth ∧ b'.bufferHeight = b.bufferHeight ∧
    b'.demTileSize = b.demTileSize ∧
    b'.minCellDistanceToEdgeBeforeRefresh =
      b.minCellDistanceToEdgeBeforeRefresh ∧
    ((b' = b.clearUpdateLog ∧ b.state = .inited ∧
        b.isBufferUpdateRequired lon lat vw vh = false) ∨
      (b'.state = .inited ∧
       b'.centerGlobalCellLon = GlobalCell.fromDegrees lon b.demTileSize ∧
       b'.centerGlobalCellLat = GlobalCell.fromDegrees lat b.demTileSize ∧
       b'.bufferWestEdge =
         ⟨(GlobalCell.fromDegrees lon b.demTileSize).value -
           b.bufferWidth.tdiv 2⟩ ∧
       b'.bufferEastEdge =
         ⟨(GlobalCell.fromDegrees lon b.demTileSize).value -
           b.bufferWidth.tdiv 2 + b.bufferWidth⟩ ∧
       b'.bufferNorthEdge =
         ⟨(GlobalCell.fromDegrees lat b.demTileSize).value +
           b.bufferHeight.tdiv 2⟩ ∧
       b'.bufferSouthEdge =
         ⟨(GlobalCell.fromDegrees lat b.demTileSize).value +
           b.bufferHeight.tdiv 2 - b.bufferHeight⟩)) := by
  simp only [DemBuffer.updateMapPosition, DemBuffer.clearUpdateLog] at h
  split_ifs at h with h1 h2
  · obtain ⟨r1, r2, r3, r4, r5, r6, r7, r8, r9, r10, r11⟩ := reloadOkFields h
    exact ⟨r1, r2, r3, r4, .inr ⟨r5, r6, r7, r8, r9, r10, r11⟩⟩
  · obtain ⟨r, hr, h⟩ := bindOkElim h
    have hchar := (tpuCharacterization rfl rfl rfl rfl).2 r.1 r.2 hr
    split_ifs at h with h3
    · obtain ⟨hent, -⟩ := hchar
      obtain ⟨hb2, -⟩ := hent h3
      rw [hb2] at h
      obtain ⟨r1, r2, r3, r4, r5, r6, r7, r8, r9, r10, r11⟩ :=
        reloadOkFields h
      exact ⟨r1, r2, r3, r4, .inr ⟨r5, r6, r7, r8, r9, r10, r11⟩⟩
    · obtain ⟨-, hpart⟩ := hchar
      have hd : r.1 = .partUpdatePerformed := by
        cases hh : r.1 with
        | partUpdatePerformed => rfl
        | entireBufferReloadRequired => exact absurd hh h3
      obtain ⟨-, -, p3, p4, p5, p6, p7, p8, p9, p10, p11, p12, p13, -⟩ :=
        hpart hd
      injection h with h2
      subst h2
      have hst : r.2.state = .inited := by
        rw [p7]
        show b.state = .inited
        cases hs : b.state with
        | uninit => exact absurd hs h1
        | inited => rfl
      exact ⟨p3, p4, p5, p6, .inr ⟨hst, p8, p9, p10, p11, p12, p13⟩⟩
  · injection h with h2
    subst h2
    refine ⟨rfl, rfl, rfl, rfl, .inl ⟨rfl, ?_, ?_⟩⟩
    · cases hs : b.state with
      | uninit => exact absurd hs h1
      | inited => rfl
    · exact Bool.eq_false_iff.mpr h2

/-! ### Claim C3: the overwrite guard is unreachable -/

/-- Claim C3 (confirmed): during every `update_map_position` call on a
buffer with non-negative dimensions and a positive tile size — whatever
path it takes (no-op, partial update with block move and paging-in of the
remainder, or full reload) — no `set_cell` call ever targets a cell that
already holds a non-sentinel value: the overwrite fatal error of
`set_cell` is unreachable. -/
theorem c3_overwrite_guard_unreachable (fuel : Nat) (b : DemBuffer)
    (lon lat : Deg) (vw vh : Int) (ht : 0 < b.demTileSize)
    (hW : 0 ≤ b.bufferWidth) (hH : 0 ≤ b.bufferHeight) :
    b.updateMapPosition fuel lon lat vw vh ≠ .error .overwrite :=
  updateNoOverwrite ht hW hH

theorem c3_witness :
    0 < (DemBuffer.new 8 8 4 2).demTileSize ∧
    0 ≤ (DemBuffer.new 8 8 4 2).bufferWidth ∧
    0 ≤ (DemBuffer.new 8 8 4 2).bufferHeight ∧
    (DemBuffer.new 8 8 4 2).updateMapPosition 100 ⟨21, 2⟩ ⟨21, 2⟩ 4 4 ≠
      .error .overwrite :=
  ⟨by decide, by decide, by decide,
    c3_overwrite_guard_unreachable 100 (DemBuffer.new 8 8 4 2) ⟨21, 2⟩
      ⟨21, 2⟩ 4 4 (by decide) (by decide) (by decide)⟩

/-! ### Claim C4: the intersection decision of `try_partial_update` -/

/-- Claim C4 (confirmed): `try_partial_update` signals
`entireBufferReloadRequired` (leaving the buffer untouched) exactly when
the intersection of the old and the proposed coverage — west edge the
`max` of the two wests, east the `min` of the easts, north the `min` of
the norths, south the `max` of the souths — has negative width or
negative height; otherwise it performs the block move of the overlap and
records it. -/
theorem c4_intersection_decision (fuel : Nat) (b : DemBuffer)
    (lon lat : Deg) (newWest newNorth blockWidth blockHeight : Int)
    (hnw : newWest = (GlobalCell.fromDegrees lon b.demTileSize).value -
      b.bufferWidth.tdiv 2)
    (hnn : newNorth = (GlobalCell.fromDegrees lat b.demTileSize).value +
      b.bufferHeight.tdiv 2)
    (hbw : blockWidth = min b.bufferEastEdge.value (newWest + b.bufferWidth) -
      max b.bufferWestEdge.value newWest)
    (hbh : blockHeight = min b.bufferNorthEdge.value newNorth -
      max b.bufferSouthEdge.value (newNorth - b.bufferHeight)) :
    ((blockWidth < 0 ∨ blockHeight < 0) →
      b.tryPartUpdate fuel lon lat = .ok (.entireBufferReloadRequired, b)) ∧
    (∀ d b', b.tryPartUpdate fuel lon lat = .ok (d, b') →
      ((d = .entireBufferReloadRequired ↔
          (blockWidth < 0 ∨ blockHeight < 0)) ∧
        (d = .partUpdatePerformed → b'.blockMove = some
          ⟨max b.bufferWestEdge.value newWest - b.bufferWestEdge.value,
            b.bufferNorthEdge.value - min b.bufferNorthEdge.value newNorth,
            blockWidth, blockHeight,
            max b.bufferWestEdge.value newWest - newWest,
            newNorth - min b.bufferNorthEdge.value newNorth⟩))) := by
  obtain ⟨h1, h2⟩ := @tpuCharacterization fuel b lon lat newWest newNorth
    blockWidth blockHeight hnw hnn hbw hbh
  refine ⟨h1, fun d b' h => ?_⟩
  obtain ⟨hent, hpart⟩ := h2 d b' h
  constructor
  · constructor
    · intro hd
      exact (hent hd).2
    · intro hneg
      cases hh : d with
      | entireBufferReloadRequired => rfl
      | partUpdatePerformed =>
        obtain ⟨hbw0, hbh0, -⟩ := hpart hh
        exact absurd hneg (by omega)
  · intro hd
    obtain ⟨-, -, -, -, -, -, -, -, -, -, -, -, -, hbm⟩ := hpart hd
    exact hbm

theorem c4_witness :
    (40 : Int) =
      (GlobalCell.fromDegrees ⟨21, 2⟩ (DemBuffer.new 4 4 4 2).demTileSize).value -
        (DemBuffer.new 4 4 4 2).bufferWidth.tdiv 2 ∧
    (-40 : Int) =
      min (DemBuffer.new 4 4 4 2).bufferEastEdge.value
          (40 + (DemBuffer.new 4 4 4 2).bufferWidth) -
        max (DemBuffer.new 4 4 4 2).bufferWestEdge.value 40 ∧
    (DemBuffer.new 4 4 4 2).tryPartUpdate 100 ⟨21, 2⟩ ⟨21, 2⟩ =
      .ok (.entireBufferReloadRequired, DemBuffer.new 4 4 4 2) :=
  ⟨by decide, by decide,
    (c4_intersection_decision 100 (DemBuffer.new 4 4 4 2) ⟨21, 2⟩ ⟨21, 2⟩
        40 44 (-40) (-40) (by decide) (by decide) (by decide) (by decide)).1
      (Or.inl (by decide))⟩

/-! ### Claim C6: idempotence of a repeated `update_map_position` -/

/-- Extract the buffer out of an `ok` result, with a default for errors
(used to name concrete run results in closed statements). -/
def okD (e : Except Err DemBuffer) (d : DemBuffer) : DemBuffer :=
  match e with
  | .ok b => b
  | .error _ => d

/-- Two identical `update_map_position` calls on a fresh 4×4 buffer with
margin 2 and a visible area as large as the buffer. -/
def c6CounterRun : Except Err DemBuffer :=
  ((DemBuffer.new 4 4 4 2).updateMapPosition 100 ⟨21, 2⟩ ⟨21, 2⟩ 4 4).bind
    (fun b1 => b1.updateMapPosition 100 ⟨21, 2⟩ ⟨21, 2⟩ 4 4)

/-- Counterexample to claim C6 as stated: when the buffer margins are
smaller than `min_cell_distance_to_edge_before_refresh`, the second,
identical call is *not* a no-op — `is_buffer_update_required` fires again,
and the call performs an identity block move (`block_move ≠ None`) and
loads two (degenerate) tile slices. -/
theorem c6_counterexample :
    c6CounterRun.map (fun b => (decide (b.blockMove = none),
      b.slicesLoaded.length)) = .ok (false, 2) := rfl

/-- Claim C6 as amended: if the first call succeeds *and* the buffer
leaves at least `min_cell_distance_to_edge_before_refresh` cells between
each visible-area edge and the corresponding buffer edge (four margin
conditions), then a second call with the identical center and visible
area returns the buffer unchanged except for clearing the update log:
zero slices loaded, `block_move = None`, and the data, the four edges and
the recorded center of the result equal those of the first call's
result. -/
theorem c6_noop_second_call {fuel fuel2 : Nat} {b b1 : DemBuffer}
    {lon lat : Deg} {vw vh : Int}
    (h1 : b.updateMapPosition fuel lon lat vw vh = .ok b1)
    (hm1 : b.minCellDistanceToEdgeBeforeRefresh ≤
      b.bufferWidth.tdiv 2 - vw.tdiv 2)
    (hm2 : b.minCellDistanceToEdgeBeforeRefresh ≤
      (b.bufferWidth - b.bufferWidth.tdiv 2) - (vw - vw.tdiv 2))
    (hm3 : b.minCellDistanceToEdgeBeforeRefresh ≤
      b.bufferHeight.tdiv 2 - vh.tdiv 2)
    (hm4 : b.minCellDistanceToEdgeBeforeRefresh ≤
      (b.bufferHeight - b.bufferHeight.tdiv 2) - (vh - vh.tdiv 2)) :
    b1.updateMapPosition fuel2 lon lat vw vh = .ok b1.clearUpdateLog ∧
    b1.clearUpdateLog.slicesLoaded = [] ∧
    b1.clearUpdateLog.blockMove = none ∧
    b1.clearUpdateLog.data = b1.data ∧
    b1.clearUpdateLog.bufferWestEdge = b1.bufferWestEdge ∧
    b1.clearUpdateLog.bufferEastEdge = b1.bufferEastEdge ∧
    b1.clearUpdateLog.bufferNorthEdge = b1.bufferNorthEdge ∧
    b1.clearUpdateLog.bufferSouthEdge = b1.bufferSouthEdge ∧
    b1.clearUpdateLog.centerGlobalCellLon = b1.centerGlobalCellLon ∧
    b1.clearUpdateLog.centerGlobalCellLat = b1.centerGlobalCellLat := by
  obtain ⟨hw, hh, htt, hmm, hcases⟩ := updateOkCases h1
  have hreq : b1.isBufferUpdateRequired lon lat vw vh = false := by
    rcases hcases with ⟨hb1, hst, hreqb⟩ |
      ⟨hst, hclon, hclat, hwst, hest, hnrt, hsth⟩
    · rw [hb1]
      exact hreqb
    · have hwv : b1.bufferWestEdge.value =
          (GlobalCell.fromDegrees lon b.demTileSize).value -
            b.bufferWidth.tdiv 2 := by rw [hwst]
      have hev : b1.bufferEastEdge.value =
          (GlobalCell.fromDegrees lon b.demTileSize).value -
            b.bufferWidth.tdiv 2 + b.bufferWidth := by rw [hest]
      have hnv : b1.bufferNorthEdge.value =
          (GlobalCell.fromDegrees lat b.demTileSize).value +
            b.bufferHeight.tdiv 2 := by rw [hnrt]
      have hsv : b1.bufferSouthEdge.value =
          (GlobalCell.fromDegrees lat b.demTileSize).value +
            b.bufferHeight.tdiv 2 - b.bufferHeight := by rw [hsth]
      simp only [DemBuffer.isBufferUpdateRequired]
      rw [htt, hmm, hwv, hev, hnv, hsv]
      simp only [Bool.or_eq_false_iff, decide_eq_false_iff_not, not_lt]
      refine ⟨⟨⟨?_, ?_⟩, ?_⟩, ?_⟩ <;> omega
  have hst1 : b1.state = .inited := by
    rcases hcases with ⟨hb1, hst, -⟩ | ⟨hst, -⟩
    · rw [hb1]
      exact hst
    · exact hst
  refine ⟨?_, rfl, rfl, rfl, rfl, rfl, rfl, rfl, rfl, rfl⟩
  simp only [DemBuffer.updateMapPosition, DemBuffer.clearUpdateLog]
  split_ifs with hc1 hc2
  · exfalso
    have hc1' : b1.state = .uninit := hc1
    rw [hst1] at hc1'
    exact nomatch hc1'
  · exfalso
    have hc2' : b1.isBufferUpdateRequired lon lat vw vh = true := hc2
    rw [hreq] at hc2'
    exact nomatch hc2'
  · rfl

/-- The first call of the C6 witness run: a fresh 8×8 buffer with margin 1,
which leaves two cells of slack on every side of the 4×4 visible area. -/
def c6B1 : DemBuffer :=
  okD ((DemBuffer.new 8 8 4 1).updateMapPosition 100 ⟨21, 2⟩ ⟨21, 2⟩ 4 4)
    (DemBuffer.new 8 8 4 1)

theorem c6_witness :
    (DemBuffer.new 8 8 4 1).updateMapPosition 100 ⟨21, 2⟩ ⟨21, 2⟩ 4 4 =
      .ok c6B1 ∧
    (DemBuffer.new 8 8 4 1).minCellDistanceToEdgeBeforeRefresh ≤
      (DemBuffer.new 8 8 4 1).bufferWidth.tdiv 2 - (4 : Int).tdiv 2 ∧
    c6B1.updateMapPosition 100 ⟨21, 2⟩ ⟨21, 2⟩ 4 4 =
      .ok c6B1.clearUpdateLog :=
  ⟨rfl, by decide,
    (@c6_noop_second_call 100 100 (DemBuffer.new 8 8 4 1) c6B1 ⟨21, 2⟩
      ⟨21, 2⟩ 4 4 rfl (by decide) (by decide) (by decide) (by decide)).1⟩

/-! ### Claims C1 and C2: the coverage and neighbor properties -/

/-- A fresh 8×8 buffer, tile size 4, margin 2. -/
def dem8 : DemBuffer := DemBuffer.new 8 8 4 2

/-- 10.5° — exactly representable in `f32`. -/
def degTenHalf : Deg := ⟨21, 2⟩

/-- 10.75° — exactly representable in `f32`. -/
def degTenThreeQuarters : Deg := ⟨43, 4⟩

/-- A successful `update_map_position` at (10.5°, 10.5°) followed by a
successful one at (10.5°, 10.75°); the second takes the partial-update
path with the purely vertical block move `{0, 0, 8, 7, 0, 1}`. -/
def verticalMoveRun : Except Err DemBuffer :=
  (dem8.updateMapPosition 100 degTenHalf degTenHalf 4 4).bind
    (fun b => b.updateMapPosition 100 degTenHalf degTenThreeQuarters 4 4)

/-- Claim C1 (code bug): after a fresh load every cell is populated, but a
successful second call whose block move shifts the coverage vertically
leaves an entire row holding the sentinel — `fill_missing_data_after_move`
only pages in a full-height vertical strip and never fills the horizontal
gap a vertical move opens, so `prop_all_cells_are_set` is false on the
result of a successful `update_map_position`. -/
theorem c1_coverage_after_vertical_move :
    (dem8.updateMapPosition 100 degTenHalf degTenHalf 4 4).map
        DemBuffer.propAllCellsAreSet = .ok true ∧
    verticalMoveRun.map (fun b => b.blockMove) =
      .ok (some ⟨0, 0, 8, 7, 0, 1⟩) ∧
    verticalMoveRun.map DemBuffer.propAllCellsAreSet = .ok false :=
  ⟨rfl, rfl, rfl⟩

/-- Claim C2 (code bug): the neighbor-consistency property holds after a
fresh load but fails after the same successful vertical-move update as in
C1 — the unfilled row still holds sentinel cells, which do not decode to
the required east/south neighbors of the row below. -/
theorem c2_neighbors_after_vertical_move :
    (dem8.updateMapPosition 100 degTenHalf degTenHalf 4 4).bind
        DemBuffer.propAllCellsAreGoodNeighbors = .ok true ∧
    verticalMoveRun.bind DemBuffer.propAllCellsAreGoodNeighbors =
      .ok false :=
  ⟨rfl, rfl⟩

end Sion
